import Mathlib

/-!
Verification development for the case-tracker reporting/aggregation engine.

The definitions below are a shallow embedding of the TypeScript source:

* `src/lib/caseUtils.ts` — `parseDateInput`, `normalizeStatus`,
  `isActiveStatus`, `getOverdueBy`;
* `src/lib/formatters.ts` — `parseAmount`;
* `src/components/BillingManager.tsx` — `monthlySummary`, `typeTotals`,
  `quarterlySummary`, `categorizedCases`, and the add-on revenue rollup
  inside `addonAnalysis`;
* `src/components/CaseMatrix.tsx` — the quarterly branch of the `matrix`
  view (region/office grouping and ordering).

JavaScript numbers are modelled as rationals (`ℚ`), JavaScript `Map`s and
plain-object records as insertion-ordered association lists, and the host
primitives (`new Date(...)`, `Number(...)`, number-to-string interpolation)
as explicit parameters or as concrete functions that agree with the host on
the inputs considered.
-/

set_option allowUnsafeReducibility true

attribute [local semireducible] Rat.add Rat.mul Rat.inv Rat.div Rat.sub Rat.neg

namespace CFTracker

/-! ### String primitives

The JavaScript string operations used by the embedded code (`trim`,
`toLowerCase`, character-class `split`/`replace`) are implemented here over
`String.data` so that every definition evaluates inside the kernel. They
agree with the host on the ASCII strings this data set contains. -/

/-- Whitespace as `trim` sees it (ASCII space, tab, and line separators). -/
def jsWsChar (c : Char) : Bool :=
  c.toNat = 32 || c.toNat = 9 || c.toNat = 10 || c.toNat = 13 || c.toNat = 11 || c.toNat = 12

/-- Models `s.trim()`: strip leading and trailing whitespace. -/
def jsTrim (s : String) : String :=
  ⟨((s.data.dropWhile jsWsChar).reverse.dropWhile jsWsChar).reverse⟩

/-- Lower-case an ASCII character. -/
def jsToLowerChar (c : Char) : Char :=
  if 65 ≤ c.toNat ∧ c.toNat ≤ 90 then Char.ofNat (c.toNat + 32) else c

/-- Models `s.toLowerCase()` on ASCII strings. -/
def jsToLower (s : String) : String :=
  ⟨s.data.map jsToLowerChar⟩

/-- Helper for `jsSplit`: accumulate the current piece (reversed) while
scanning. -/
def jsSplitAux (p : Char → Bool) : List Char → List Char → List String
  | [], acc => [⟨acc.reverse⟩]
  | c :: cs, acc => if p c then ⟨acc.reverse⟩ :: jsSplitAux p cs [] else jsSplitAux p cs (c :: acc)

/-- Models `s.split(regex)` for a single-character-class regex: split at
every matching character, keeping empty pieces. -/
def jsSplit (p : Char → Bool) (s : String) : List String :=
  jsSplitAux p s.data []

/-- Models `s.replace(/[$,]/g, '')`: remove every `$` and `,`. -/
def stripCurrencyChars (s : String) : String :=
  ⟨s.data.filter fun c => !(c = '$' || c = ',')⟩

/-! ### Host model: decimal printing of numbers

A template literal `${n}` converts a number to its decimal string. We model
this conversion with an explicit fuel-based digit printer so that it both
evaluates inside the kernel and supports an injectivity proof. -/

/-- Decimal digits of `n`, most significant first, computed with explicit
fuel (`fuel` bounds the recursion depth; any fuel with `n < 10 ^ fuel` gives
the final value). Models the host number-to-string conversion for naturals. -/
def natCharsAux : Nat → Nat → List Char
  | 0, _ => []
  | fuel + 1, n =>
    if n < 10 then [Nat.digitChar n]
    else natCharsAux fuel (n / 10) ++ [Nat.digitChar (n % 10)]

/-- Decimal string (as a character list) of a natural number. -/
def natChars (n : Nat) : List Char :=
  natCharsAux (n + 1) n

/-- Decimal string (as a character list) of an integer, with a leading
minus sign for negative values; models `${i}` for integral numbers. -/
def intChars (i : Int) : List Char :=
  if i < 0 then '-' :: natChars i.natAbs else natChars i.toNat

/-! ### Host model: `Number(...)` on sanitized amount strings

`parseAmount` feeds `Number(...)` a string already stripped of `$` and `,`
and trimmed. We model the conversion on empty strings and decimal literals
(optionally signed, with an optional fractional part); the inputs appearing
in this development are all of that shape. Any other string is reported as
unconvertible (`none`, the host's `NaN`). -/

/-- Value of a list of decimal digit characters. -/
def digitsVal (cs : List Char) : Nat :=
  cs.foldl (fun a c => a * 10 + (c.toNat - 48)) 0

/-- Models the host `Number(s)` conversion: empty string converts to `0`,
a decimal literal to its value, anything else to `NaN` (`none`). -/
def jsNumber (s : String) : Option ℚ :=
  if s.data = [] then some 0
  else
    let (sgn, cs) : ℚ × List Char :=
      match s.data with
      | '-' :: t => (-1, t)
      | '+' :: t => (1, t)
      | t => (1, t)
    match cs.span (fun c => c ≠ '.') with
    | (ip, []) =>
      if ip ≠ [] ∧ ip.all Char.isDigit then some (sgn * digitsVal ip) else none
    | (ip, '.' :: fp) =>
      if (ip ≠ [] ∨ fp ≠ []) ∧ ip.all Char.isDigit ∧ fp.all Char.isDigit ∧
          fp.all (fun c => c ≠ '.') then
        some (sgn * ((digitsVal ip : ℚ) + (digitsVal fp : ℚ) / (10 : ℚ) ^ fp.length))
      else none
    | (_, _) => none

/-- Embeds `parseAmount` from `src/lib/formatters.ts`: falsy values parse to
`0`; otherwise `$` and `,` are stripped, the string is trimmed and converted
with `Number(...)`, and `NaN` falls back to `0`. -/
def parseAmount (value : String) : ℚ :=
  if value = "" then 0
  else
    let sanitized := jsTrim (stripCurrencyChars value)
    match jsNumber sanitized with
    | some n => n
    | none => 0

/-! ### Dates -/

/-- A valid JavaScript `Date` as observed by the aggregation code:
`getFullYear()`, `getMonth()` (0-based) and `getTime()` (ms since epoch). -/
structure JDate where
  year : Int
  month : Fin 12
  time : Int
deriving DecidableEq

/-- The value given to `parseDateInput` (`string | number | Date`,
possibly `undefined`/`null`; an `invalid` `Date` carries a `NaN` time). -/
inductive DateInput
  | undef
  | str (s : String)
  | num (serial : ℚ)
  | date (d : JDate)
  | invalidDate
deriving DecidableEq

/-- The host primitives that `parseDateInput` relies on: `new Date(string)`
and `new Date(milliseconds)` (returning `none` for an invalid date). -/
structure JsHost where
  newDateFromString : String → Option JDate
  newDateFromMs : Int → Option JDate

/-- Embeds `excelSerialToDate` from `src/lib/caseUtils.ts`: Excel serial
days to a `Date` via the 25569-day epoch offset. A rational serial is
always finite, so the `Number.isFinite` guard is satisfied. -/
def excelSerialToDate (h : JsHost) (serial : ℚ) : Option JDate :=
  h.newDateFromMs (round ((serial - 25569) * 86400 * 1000))

/-- Embeds `parseDateInput` from `src/lib/caseUtils.ts`: `null`/`undefined`,
blank strings, `"NA"`/`"N/A"` (any letter case) and unparseable strings all
yield `null`; `Date` objects pass through (invalid ones yield `null`);
numbers go through the Excel-serial conversion. -/
def parseDateInput (h : JsHost) : DateInput → Option JDate
  | .undef => none
  | .date d => some d
  | .invalidDate => none
  | .num serial => excelSerialToDate h serial
  | .str s =>
    let trimmed := jsTrim s
    if trimmed = "" then none
    else
      let lower := jsToLower trimmed
      if lower = "na" ∨ lower = "n/a" then none
      else h.newDateFromString trimmed

/-! ### A concrete host

`refHost` is the concrete instance of `JsHost` used for scenario claims and
witnesses. Its string parser models the host `Date` constructor on ISO
`YYYY-MM-DD` calendar dates (the only string shape appearing in concrete
inputs of this development); every other string is rejected. Its
milliseconds constructor is never exercised by those inputs and rejects
out-of-range instants like the host. -/

/-- Numeric value of a decimal digit character. -/
def digitVal (c : Char) : Nat := c.toNat - 48

/-- Days from 1970-01-01 to the civil date `y-mo-da` (`mo` 1-based),
by the standard civil-from-days inverse formula. -/
def epochDays (y : Int) (mo da : Nat) : Int :=
  let yAdj : Int := if mo ≤ 2 then y - 1 else y
  let era : Int := Int.fdiv yAdj 400
  let yoe : Int := yAdj - era * 400
  let mp : Int := (mo : Int) + (if mo > 2 then -3 else 9)
  let doy : Int := Int.fdiv (153 * mp + 2) 5 + (da : Int) - 1
  let doe : Int := yoe * 365 + Int.fdiv yoe 4 - Int.fdiv yoe 100 + doy
  era * 146097 + doe - 719468

/-- Models the host `new Date(string)` on ISO `YYYY-MM-DD` strings; other
strings are treated as unparseable. -/
def isoNewDate (s : String) : Option JDate :=
  match s.data with
  | [y1, y2, y3, y4, '-', m1, m2, '-', d1, d2] =>
    if [y1, y2, y3, y4, m1, m2, d1, d2].all Char.isDigit then
      let y : Nat := 1000 * digitVal y1 + 100 * digitVal y2 + 10 * digitVal y3 + digitVal y4
      let mo : Nat := 10 * digitVal m1 + digitVal m2
      let da : Nat := 10 * digitVal d1 + digitVal d2
      if hmo : 1 ≤ mo ∧ mo ≤ 12 then
        if 1 ≤ da ∧ da ≤ 31 then
          some ⟨(y : Int), ⟨mo - 1, by omega⟩, 86400000 * epochDays (y : Int) mo da⟩
        else none
      else none
    else none
  | _ => none

/-- Civil date `(year, month 1-based, day)` of day number `z` (days since
1970-01-01), the standard inverse of `epochDays`. -/
def civilFromDays (z0 : Int) : Int × Int × Int :=
  let z := z0 + 719468
  let era := Int.fdiv z 146097
  let doe := z - era * 146097
  let yoe := Int.fdiv (doe - Int.fdiv doe 1460 + Int.fdiv doe 36524 - Int.fdiv doe 146096) 365
  let y := yoe + era * 400
  let doy := doe - (365 * yoe + Int.fdiv yoe 4 - Int.fdiv yoe 100)
  let mp := Int.fdiv (5 * doy + 2) 153
  let d := doy - Int.fdiv (153 * mp + 2) 5 + 1
  let m := mp + (if mp < 10 then 3 else -9)
  (if m ≤ 2 then y + 1 else y, m, d)

/-- The concrete reference host. `newDateFromMs` accepts instants within the
host range of ±8.64e15 ms; the month field is reduced mod 12, a no-op for
the genuine values `civilFromDays` produces. -/
def refHost : JsHost where
  newDateFromString := isoNewDate
  newDateFromMs := fun ms =>
    if ms.natAbs ≤ 8640000000000000 then
      let civil := civilFromDays (Int.fdiv ms 86400000)
      some ⟨civil.1, ⟨(civil.2.1 - 1).toNat % 12, Nat.mod_lt _ (by omega)⟩, ms⟩
    else none

/-! ### Records and maps

JavaScript `Map`s and plain objects used as dictionaries are modelled as
insertion-ordered association lists: `set` replaces the value at an
existing key in place and appends a fresh key at the end, `get` finds the
value by key. -/

/-- Lookup in an insertion-ordered association list (`map.get(k)` /
`obj[k]`). -/
def alistGet? : List (String × α) → String → Option α
  | [], _ => none
  | (k1, v) :: r, k => if k1 = k then some v else alistGet? r k

/-- Update of an insertion-ordered association list (`map.set(k, v)` /
`obj[k] = v`): in-place replacement for an existing key, append for a
fresh one. -/
def recordSet : List (String × α) → String → α → List (String × α)
  | [], k, v => [(k, v)]
  | (k1, v1) :: r, k, v => if k1 = k then (k, v) :: r else (k1, v1) :: recordSet r k v

/-- The numeric read `obj[k] || 0` on a record of numbers. -/
def recordGet0 (r : List (String × ℚ)) (k : String) : ℚ :=
  (alistGet? r k).getD 0

/-- Sum of all values stored in a numeric record (what iterating
`Object.entries` and adding every amount computes). -/
def sumVals (r : List (String × ℚ)) : ℚ :=
  (r.map (fun p => p.2)).sum

/-! ### The case and adjustment records -/

/-- The fields of a `Case` record read by the aggregation components.
The optional string fields are observed only through truthiness tests,
trimming and guarded access, where the absent value and the empty string
behave identically, so `""` stands for both. -/
structure Case where
  dateReceived : DateInput
  type : String
  amount : String
  addOnsBilling : String
  addOnsOnly : String
  addOnIpDelivered : String
  region : String
  office : String
deriving DecidableEq

/-- A `BillingAdjustment` record (`src/lib/types.ts`). -/
structure BillingAdjustment where
  month : Nat
  year : Int
  type : String
  amount : ℚ
  reason : String
deriving DecidableEq

/-! ### Monthly summary (`monthlySummary` in `BillingManager.tsx`) -/

/-- One monthly bucket: per-type sums plus the month total. -/
structure MonthlySummary where
  month : Nat
  year : Int
  typeAmounts : List (String × ℚ)
  total : ℚ
deriving DecidableEq

/-- The map key `` `${year}-${month}` ``. -/
def monthKey (year : Int) (month : Nat) : String :=
  ⟨intChars year ++ '-' :: natChars month⟩

/-- The pre-allocated summary map: one zeroed bucket per month 1–12 of the
selected year. -/
def initMonths (selectedYear : Int) : List (String × MonthlySummary) :=
  (List.range 12).map fun i =>
    (monthKey selectedYear (i + 1), ⟨i + 1, selectedYear, [], 0⟩)

/-- The body of the per-case loop applied to the bucket the case falls in:
add the regular amount under the case type when both the amount and the
type are non-empty, then add a non-blank add-ons billing amount under the
synthetic `"Add-ons"` type. -/
def addCaseToSummary (s : MonthlySummary) (c : Case) : MonthlySummary :=
  let s1 :=
    if c.amount ≠ "" ∧ c.type ≠ "" then
      let amount := parseAmount c.amount
      let ty := if c.type = "" then "Others" else c.type
      { s with
        typeAmounts := recordSet s.typeAmounts ty (recordGet0 s.typeAmounts ty + amount),
        total := s.total + amount }
    else s
  if c.addOnsBilling ≠ "" ∧ jsTrim c.addOnsBilling ≠ "" then
    let addOnAmount := parseAmount c.addOnsBilling
    { s1 with
      typeAmounts :=
        recordSet s1.typeAmounts "Add-ons" (recordGet0 s1.typeAmounts "Add-ons" + addOnAmount),
      total := s1.total + addOnAmount }
  else s1

/-- One iteration of the case-aggregation loop of `monthlySummary`: parse
the received date, skip the record when it is missing or outside the
selected year, otherwise update the bucket of its month. -/
def caseStep (h : JsHost) (selectedYear : Int)
    (m : List (String × MonthlySummary)) (c : Case) : List (String × MonthlySummary) :=
  match parseDateInput h c.dateReceived with
  | none => m
  | some d =>
    if d.year ≠ selectedYear then m
    else
      let month := d.month.val + 1
      let key := monthKey selectedYear month
      match alistGet? m key with
      | none => m
      | some s => recordSet m key (addCaseToSummary s c)

/-- One iteration of the adjustment loop of `monthlySummary`: skip an
adjustment for a different year, look up its `` `${year}-${month}` ``
bucket, silently skip when it is absent, otherwise add the signed amount
to the bucket entry of its type and to the bucket total. -/
def adjStep (selectedYear : Int) (m : List (String × MonthlySummary))
    (adj : BillingAdjustment) : List (String × MonthlySummary) :=
  if adj.year ≠ selectedYear then m
  else
    let key := monthKey adj.year adj.month
    match alistGet? m key with
    | none => m
    | some s =>
      recordSet m key
        { s with
          typeAmounts :=
            recordSet s.typeAmounts adj.type (recordGet0 s.typeAmounts adj.type + adj.amount),
          total := s.total + adj.amount }

/-- Insertion into a list sorted by a boolean `le` comparison; `insertLe`
and `sortLe` model `Array.prototype.sort` with a two-argument comparator. -/
def insertLe (le : α → α → Bool) (x : α) : List α → List α
  | [] => [x]
  | y :: ys => if le x y then x :: y :: ys else y :: insertLe le x ys

/-- Sorting with a comparator, as `arr.sort(cmp)`. -/
def sortLe (le : α → α → Bool) (l : List α) : List α :=
  l.foldr (insertLe le) []

/-- The summary map of `monthlySummary` before it is turned into a sorted
array: pre-allocate the 12 buckets of the selected year, aggregate the case
amounts, then apply the adjustments. -/
def monthlyMap (h : JsHost) (cases : List Case) (selectedYear : Int)
    (adjustments : List BillingAdjustment) : List (String × MonthlySummary) :=
  adjustments.foldl (adjStep selectedYear)
    (cases.foldl (caseStep h selectedYear) (initMonths selectedYear))

/-- Embeds the `monthlySummary` memo of `BillingManager.tsx`: the buckets of
`monthlyMap`, sorted by month. -/
def monthlySummary (h : JsHost) (cases : List Case) (selectedYear : Int)
    (adjustments : List BillingAdjustment) : List MonthlySummary :=
  sortLe (fun a b => a.month ≤ b.month)
    ((monthlyMap h cases selectedYear adjustments).map fun p => p.2)

/-- Embeds the `typeTotals` memo: per-type totals across all months and the
grand total, accumulated by iterating every `typeAmounts` entry of every
month. -/
def typeTotals (summary : List MonthlySummary) : List (String × ℚ) × ℚ :=
  summary.foldl
    (fun acc mo =>
      mo.typeAmounts.foldl
        (fun acc2 p => (recordSet acc2.1 p.1 (recordGet0 acc2.1 p.1 + p.2), acc2.2 + p.2))
        acc)
    ([], 0)

/-! ### Quarterly summary (`quarterlySummary` in `BillingManager.tsx`) -/

/-- One quarterly bucket. -/
structure QuarterSummary where
  quarter : Nat
  typeAmounts : List (String × ℚ)
  total : ℚ
deriving DecidableEq

/-- The map key `` `${year}-Q${q}` ``. -/
def quarterKey (year : Int) (q : Nat) : String :=
  ⟨intChars year ++ '-' :: 'Q' :: natChars q⟩

/-- The pre-allocated quarterly map: one zeroed bucket per quarter 1–4. -/
def initQuarters (selectedYear : Int) : List (String × QuarterSummary) :=
  (List.range 4).map fun i => (quarterKey selectedYear (i + 1), ⟨i + 1, [], 0⟩)

/-- The per-case update of a quarterly bucket (same amount logic as the
monthly one). -/
def addCaseToQuarter (s : QuarterSummary) (c : Case) : QuarterSummary :=
  let s1 :=
    if c.amount ≠ "" ∧ c.type ≠ "" then
      let ty := if c.type = "" then "Others" else c.type
      let amount := parseAmount c.amount
      { s with
        typeAmounts := recordSet s.typeAmounts ty (recordGet0 s.typeAmounts ty + amount),
        total := s.total + amount }
    else s
  if c.addOnsBilling ≠ "" ∧ jsTrim c.addOnsBilling ≠ "" then
    let addOnAmount := parseAmount c.addOnsBilling
    { s1 with
      typeAmounts :=
        recordSet s1.typeAmounts "Add-ons" (recordGet0 s1.typeAmounts "Add-ons" + addOnAmount),
      total := s1.total + addOnAmount }
  else s1

/-- One iteration of the case loop of `quarterlySummary`; the quarter index
is `Math.floor(getMonth() / 3) + 1`. -/
def quarterStep (h : JsHost) (selectedYear : Int)
    (m : List (String × QuarterSummary)) (c : Case) : List (String × QuarterSummary) :=
  match parseDateInput h c.dateReceived with
  | none => m
  | some d =>
    if d.year ≠ selectedYear then m
    else
      let quarter := d.month.val / 3 + 1
      let key := quarterKey selectedYear quarter
      match alistGet? m key with
      | none => m
      | some s => recordSet m key (addCaseToQuarter s c)

/-- The quarterly summary map before sorting. -/
def quarterlyMap (h : JsHost) (cases : List Case) (selectedYear : Int) :
    List (String × QuarterSummary) :=
  cases.foldl (quarterStep h selectedYear) (initQuarters selectedYear)

/-- Embeds the `quarterlySummary` memo of `BillingManager.tsx` (no
adjustment overlay is applied at quarterly granularity). -/
def quarterlySummary (h : JsHost) (cases : List Case) (selectedYear : Int) :
    List QuarterSummary :=
  sortLe (fun a b => a.quarter ≤ b.quarter)
    ((quarterlyMap h cases selectedYear).map fun p => p.2)

/-! ### Categorization classifier (`categorizedCases` in `BillingManager.tsx`) -/

/-- The three category lists produced by `categorizedCases`. -/
structure Categorized where
  typeOnly : List Case
  bundled : List Case
  addonsOnly : List Case
deriving DecidableEq

/-- Truthiness of `c.type && c.type !== ''`. -/
def hasType (c : Case) : Prop := c.type ≠ ""

/-- Truthiness of `c.addOnsBilling && c.addOnsBilling.trim() !== ''`. -/
def hasAddOns (c : Case) : Prop := c.addOnsBilling ≠ "" ∧ jsTrim c.addOnsBilling ≠ ""

/-- Truthiness of `c.addOnsOnly?.toLowerCase() === 'yes'`. -/
def isAddOnOnly (c : Case) : Prop := jsToLower c.addOnsOnly = "yes"

instance : DecidablePred hasType := fun c => by unfold hasType; infer_instance

instance : DecidablePred hasAddOns := fun c => by unfold hasAddOns; infer_instance

instance : DecidablePred isAddOnOnly := fun c => by unfold isAddOnOnly; infer_instance

/-- Whether a case is retained by the reporting-year guard shared by the
classifier views: its received date parses and falls in the selected year. -/
def inYear (h : JsHost) (selectedYear : Int) (c : Case) : Prop :=
  match parseDateInput h c.dateReceived with
  | none => False
  | some d => d.year = selectedYear

instance (h : JsHost) (y : Int) (c : Case) : Decidable (inYear h y c) := by
  unfold inYear
  exact match parseDateInput h c.dateReceived with
  | none => inferInstanceAs (Decidable False)
  | some _ => inferInstanceAs (Decidable (_ = _))

/-- One iteration of the `categorizedCases` loop: the add-ons-only test,
then the bundled test, then the type-only test, in that order. -/
def categorizeStep (h : JsHost) (selectedYear : Int) (acc : Categorized) (c : Case) :
    Categorized :=
  if inYear h selectedYear c then
    if isAddOnOnly c ∧ hasAddOns c then
      { acc with addonsOnly := acc.addonsOnly ++ [c] }
    else if hasType c ∧ hasAddOns c then
      { acc with bundled := acc.bundled ++ [c] }
    else if hasType c ∧ ¬hasAddOns c then
      { acc with typeOnly := acc.typeOnly ++ [c] }
    else acc
  else acc

/-- Embeds the `categorizedCases` memo of `BillingManager.tsx`. -/
def categorizedCases (h : JsHost) (cases : List Case) (selectedYear : Int) : Categorized :=
  cases.foldl (categorizeStep h selectedYear) ⟨[], [], []⟩

/-! ### Add-on component rollup (inside `addonAnalysis` in `BillingManager.tsx`) -/

/-- A per-component rollup cell (`{ count, revenue }`). -/
structure AddOnStat where
  count : Nat
  revenue : ℚ
deriving DecidableEq

/-- The component names of an `addOnIpDelivered` field as the source
computes them: `split(/[,+]/)`, trim each piece, drop empties. -/
def addonComponents (s : String) : List String :=
  ((jsSplit (fun ch => ch = ',' || ch = '+') s).map jsTrim).filter fun a => a ≠ ""

/-- The body of the `addOns.forEach` loop of `addonAnalysis`: bump the
component's count and add `share` (the even revenue share) to it, starting
from `{ count: 0, revenue: 0 }` when the component is new. -/
def addonBump (share : ℚ) (m : List (String × AddOnStat)) (addon : String) :
    List (String × AddOnStat) :=
  let existing := (alistGet? m addon).getD ⟨0, 0⟩
  recordSet m addon ⟨existing.count + 1, existing.revenue + share⟩

/-- One iteration of the `addOnMap` loop of `addonAnalysis`: for a
reporting-year case with a non-blank add-ons billing amount and a non-empty
`addOnIpDelivered` list, bump each listed component with an even share
`addOnAmount / addOns.length` of the case's add-on revenue. -/
def addonRollupStep (h : JsHost) (selectedYear : Int)
    (m : List (String × AddOnStat)) (c : Case) : List (String × AddOnStat) :=
  if inYear h selectedYear c then
    let addOnAmount : ℚ := if hasAddOns c then parseAmount c.addOnsBilling else 0
    if hasAddOns c ∧ c.addOnIpDelivered ≠ "" then
      let addOns := addonComponents c.addOnIpDelivered
      addOns.foldl (addonBump (addOnAmount / (addOns.length : ℚ))) m
    else m
  else m

/-- The `addOnMap` of `addonAnalysis`, folded over the case list. -/
def addonRollup (h : JsHost) (cases : List Case) (selectedYear : Int) :
    List (String × AddOnStat) :=
  cases.foldl (addonRollupStep h selectedYear) []

/-- Group a token list into the runs separated by the token `"and"`. -/
def splitAtAndToken : List String → List (List String)
  | [] => [[]]
  | w :: ws =>
    let rest := splitAtAndToken ws
    if w = "and" then [] :: rest
    else
      match rest with
      | [] => [[w]]
      | g :: gs => (w :: g) :: gs

/-- Join a token list back into a space-separated string. -/
def joinSpace (g : List String) : String :=
  ⟨((g.map String.data).intersperse [' ']).flatten⟩

/-- Modelled from the spec: component splitting as §4.5 words it, on the
delimiters comma, plus sign, or the word "and". Each comma/plus piece is
further divided at occurrences of the standalone word `"and"`. Used only to
compare the spec's reading with the source's `split(/[,+]/)`. -/
def specSplitComponents (s : String) : List String :=
  (((jsSplit (fun ch => ch = ',' || ch = '+') s).map fun piece =>
      (splitAtAndToken ((jsSplit (fun ch => ch = ' ') piece).filter fun w => w ≠ "")).map
        joinSpace).flatten).filter fun a => a ≠ ""

/-! ### Region/office matrix (quarterly branch of `matrix` in `CaseMatrix.tsx`) -/

/-- The canonical region list `REGION_ORDER`. -/
def REGION_ORDER : List String := ["Americas", "APAC", "EMEA"]

/-- Sentinel for a blank region. -/
def UNKNOWN_REGION : String := "(Unassigned Region)"

/-- Sentinel for a blank office. -/
def UNKNOWN_OFFICE : String := "(Blank Office)"

/-- Quarter counts and total of one office (`{ quarters, total }`). -/
structure OfficeData where
  quarters : List Nat
  total : Nat
deriving DecidableEq

/-- A rendered office row. -/
structure OfficeRow where
  office : String
  quarters : List Nat
  total : Nat
deriving DecidableEq

/-- A rendered region row with its office rows and subtotals. -/
structure RegionRow where
  region : String
  rows : List OfficeRow
  quarterTotals : List Nat
  total : Nat
deriving DecidableEq

/-- Lexicographic comparison of character lists by code unit. -/
def lexLe : List Char → List Char → Bool
  | [], _ => true
  | _ :: _, [] => false
  | a :: as, b :: bs =>
    if a.toNat < b.toNat then true
    else if b.toNat < a.toNat then false
    else lexLe as bs

/-- Models `a.localeCompare(b) <= 0` for the office/region sort under
code-unit (lexicographic) order, which matches the default locale on the
ASCII names this data set contains. -/
def strLe (a b : String) : Bool :=
  lexLe a.data b.data

/-- The region label of a case:
`(c.region && c.region.trim()) || UNKNOWN_REGION`. -/
def regionLabel (c : Case) : String :=
  if jsTrim c.region = "" then UNKNOWN_REGION else jsTrim c.region

/-- The office label of a case, with the blank-office sentinel. -/
def officeLabel (c : Case) : String :=
  if jsTrim c.office = "" then UNKNOWN_OFFICE else jsTrim c.office

/-- Increment slot `i` of a count array (`arr[i] += 1`). -/
def bumpAt (l : List Nat) (i : Nat) : List Nat :=
  l.set i (l.getD i 0 + 1)

/-- One iteration of the region→office map construction in the quarterly
branch of the `matrix` memo: ensure the nested maps exist, then bump the
office's quarter slot and total. -/
def matrixStep (h : JsHost) (selectedYear : Int)
    (rm : List (String × List (String × OfficeData))) (c : Case) :
    List (String × List (String × OfficeData)) :=
  match parseDateInput h c.dateReceived with
  | none => rm
  | some d =>
    if d.year ≠ selectedYear then rm
    else
      let region := regionLabel c
      let office := officeLabel c
      let quarterIndex := min (d.month.val / 3) 3
      let rm1 := if (alistGet? rm region).isSome then rm else recordSet rm region []
      let om := (alistGet? rm1 region).getD []
      let om1 :=
        if (alistGet? om office).isSome then om else recordSet om office ⟨[0, 0, 0, 0], 0⟩
      let row := (alistGet? om1 office).getD ⟨[0, 0, 0, 0], 0⟩
      recordSet rm1 region
        (recordSet om1 office ⟨bumpAt row.quarters quarterIndex, row.total + 1⟩)

/-- Embeds the regions construction of the quarterly branch of the `matrix`
memo: build the region→office nested map over the cases, order the regions
as `REGION_ORDER`-members-present first and the remaining map keys (in
insertion order) after, and render each region with its offices sorted by
`localeCompare` (modelled as lexicographic string order). -/
def matrixRegions (h : JsHost) (cases : List Case) (selectedYear : Int) : List RegionRow :=
  let rm := cases.foldl (matrixStep h selectedYear) []
  let regionNames := rm.map fun p => p.1
  let orderedRegions :=
    (REGION_ORDER.filter fun r => (alistGet? rm r).isSome) ++
      (regionNames.filter fun r => !(REGION_ORDER.contains r))
  orderedRegions.map fun region =>
    let officeEntries := sortLe (fun a b => strLe a.1 b.1) ((alistGet? rm region).getD [])
    let rows := officeEntries.map fun p => OfficeRow.mk p.1 p.2.quarters p.2.total
    let totals :=
      rows.foldl
        (fun tot row => row.quarters.enum.foldl (fun t p => t.set p.1 (t.getD p.1 0 + p.2)) tot)
        [0, 0, 0, 0]
    RegionRow.mk region rows totals (totals.foldl (fun sum v => sum + v) 0)

/-- The distinct region labels of the reporting-year cases in order of
first appearance; used to describe the tail of the region ordering. -/
def firstSeenRegions (h : JsHost) (selectedYear : Int) (cases : List Case) : List String :=
  cases.foldl
    (fun acc c =>
      if inYear h selectedYear c then
        let r := regionLabel c
        if acc.contains r then acc else acc ++ [r]
      else acc)
    []

/-! ### Status normalization and the overdue computation (`src/lib/caseUtils.ts`) -/

/-- The `statusNormalizeMap` synonym table. -/
def statusNormalizePairs : List (String × String) :=
  [("open", "Not confirmed"),
   ("open ", "Not confirmed"),
   ("in progress", "In Progress"),
   ("in pipeline", "In Pipeline"),
   ("not accomodated", "Not accommodated"),
   ("not accommodated", "Not accommodated"),
   ("not doable", "Not doable"),
   ("not doable ", "Not doable"),
   ("not confirmed", "Not confirmed"),
   ("not confirmed ", "Not confirmed"),
   ("cancelled", "Cancelled"),
   ("canceled", "Cancelled"),
   ("cancelled ", "Cancelled"),
   ("closed", "Closed")]

/-- Embeds `normalizeStatus`: falsy or blank statuses normalize to `null`;
otherwise the trimmed value is looked up case-insensitively in the synonym
table, falling back to the trimmed original. -/
def normalizeStatus : Option String → Option String
  | none => none
  | some st =>
    if st = "" then none
    else
      let trimmed := jsTrim st
      if trimmed = "" then none
      else
        let lower := jsToLower trimmed
        match alistGet? statusNormalizePairs lower with
        | some v => some (if v = "" then trimmed else v)
        | none => some trimmed

/-- The `closedStatuses` list of terminal statuses. -/
def closedStatuses : List String :=
  ["Closed", "Delivered", "Cancelled", "Not accommodated", "Not doable", "Not confirmed"]

/-- The lowercased terminal-status set. -/
def closedStatusesSet : List String :=
  closedStatuses.map jsToLower

/-- Embeds `isActiveStatus`: a status is active when it normalizes to a
non-falsy value outside the terminal set. -/
def isActiveStatus (status : Option String) : Bool :=
  match normalizeStatus status with
  | none => false
  | some n => if n = "" then false else !(closedStatusesSet.contains (jsToLower n))

/-- Embeds `getOverdueBy`: days overdue relative to today's midnight
(passed explicitly as `todayMs`), counting only cases with a parseable
promised date and an active status. `Math.floor` of the day quotient is
integer floor division. -/
def getOverdueBy (h : JsHost) (promisedDate : DateInput) (status : Option String)
    (todayMs : Int) : Int :=
  match parseDateInput h promisedDate with
  | none => 0
  | some promised =>
    if !isActiveStatus status then 0
    else
      let diff := Int.fdiv (todayMs - promised.time) 86400000
      if diff > 0 then diff else 0

/-! ### Observations and statement vocabulary

The definitions below are not part of the embedding; they name the
quantities the theorems talk about. -/

/-- Whether a case contributes to month `mo` (1-based) of the selected
year: its date parses, lies in that year, and has that month. -/
def landsInMonth (h : JsHost) (selectedYear : Int) (mo : Nat) (c : Case) : Prop :=
  match parseDateInput h c.dateReceived with
  | none => False
  | some d => d.year = selectedYear ∧ d.month.val + 1 = mo

/-- Whether a case contributes to quarter `q` (1-based) of the selected
year. -/
def landsInQuarter (h : JsHost) (selectedYear : Int) (q : Nat) (c : Case) : Prop :=
  match parseDateInput h c.dateReceived with
  | none => False
  | some d => d.year = selectedYear ∧ d.month.val / 3 + 1 = q

instance (h : JsHost) (y : Int) (mo : Nat) (c : Case) : Decidable (landsInMonth h y mo c) := by
  unfold landsInMonth
  exact match parseDateInput h c.dateReceived with
  | none => inferInstanceAs (Decidable False)
  | some _ => inferInstanceAs (Decidable (_ ∧ _))

instance (h : JsHost) (y : Int) (q : Nat) (c : Case) : Decidable (landsInQuarter h y q c) := by
  unfold landsInQuarter
  exact match parseDateInput h c.dateReceived with
  | none => inferInstanceAs (Decidable False)
  | some _ => inferInstanceAs (Decidable (_ ∧ _))

/-- Structural invariant of the monthly summary map: its keys, bucket
months and bucket years are exactly those of the pre-allocated grid for the
selected year (the amounts are unconstrained). -/
def MonthGrid (selectedYear : Int) (m : List (String × MonthlySummary)) : Prop :=
  m.map (fun p => (p.1, p.2.month, p.2.year)) =
    (List.range 12).map fun i => (monthKey selectedYear (i + 1), i + 1, selectedYear)

/-- Structural invariant of the quarterly summary map. -/
def QuarterGrid (selectedYear : Int) (m : List (String × QuarterSummary)) : Prop :=
  m.map (fun p => (p.1, p.2.quarter)) =
    (List.range 4).map fun i => (quarterKey selectedYear (i + 1), i + 1)

/-- Balance invariant: in every bucket the stored `total` equals the sum of
the `typeAmounts` entries (every amount is added to both). -/
def SumBal (m : List (String × MonthlySummary)) : Prop :=
  ∀ p ∈ m, sumVals p.2.typeAmounts = p.2.total

/-- The net amount a list of adjustments contributes to the
(`selectedYear`, `mo`, `ty`) bucket entry. -/
def adjSumType (selectedYear : Int) (mo : Nat) (ty : String)
    (adjs : List BillingAdjustment) : ℚ :=
  (adjs.map fun a =>
    if a.year = selectedYear ∧ a.month = mo ∧ a.type = ty then a.amount else 0).sum

/-- The net amount a list of adjustments contributes to the month total of
(`selectedYear`, `mo`). -/
def adjSumTotal (selectedYear : Int) (mo : Nat) (adjs : List BillingAdjustment) : ℚ :=
  (adjs.map fun a => if a.year = selectedYear ∧ a.month = mo then a.amount else 0).sum

/-- The revenue recorded for a component in the add-on rollup (`0` for an
absent component). -/
def revOf (m : List (String × AddOnStat)) (name : String) : ℚ :=
  ((alistGet? m name).getD ⟨0, 0⟩).revenue

/-- The count recorded for a component in the add-on rollup. -/
def cntOf (m : List (String × AddOnStat)) (name : String) : Nat :=
  ((alistGet? m name).getD ⟨0, 0⟩).count

/-- The per-type sum stored in the bucket of month `mo` of a summary map
(`0` when the bucket is absent). -/
def obsType (selectedYear : Int) (m : List (String × MonthlySummary)) (mo : Nat)
    (ty : String) : ℚ :=
  match alistGet? m (monthKey selectedYear mo) with
  | none => 0
  | some s => recordGet0 s.typeAmounts ty

/-- The month total stored in the bucket of month `mo` of a summary map. -/
def obsTotal (selectedYear : Int) (m : List (String × MonthlySummary)) (mo : Nat) : ℚ :=
  match alistGet? m (monthKey selectedYear mo) with
  | none => 0
  | some s => s.total

/-! ### Concrete records used by scenario claims and counterexamples -/

/-- The record of the spec's monthly-aggregation scenario:
date 2024-03-15, type `"Full"`, amount `"50000"`. -/
def scenarioCase : Case :=
  ⟨.str "2024-03-15", "Full", "50000", "", "", "", "", ""⟩

/-- A 2024 case with an add-on billing amount but no billing type and no
add-ons-only flag. -/
def cexNoType : Case :=
  ⟨.str "2024-03-15", "", "", "100", "", "", "", ""⟩

/-- A 2024 case with a billing type, no add-on billing amount, and the
add-ons-only flag set to `"yes"`. -/
def cexFlagged : Case :=
  ⟨.str "2024-03-15", "Full", "100", "", "yes", "", "", ""⟩

/-- A 2024 case whose `addOnIpDelivered` list uses the word `"and"` as its
only separator. -/
def cexAndList : Case :=
  ⟨.str "2024-03-15", "", "", "100", "", "Alpha and Beta", "", ""⟩

/-- A 2024 case in the unrecognized region `"Zulu"`. -/
def cexZulu : Case :=
  ⟨.str "2024-03-15", "", "", "", "", "", "Zulu", "Office1"⟩

/-- A 2024 case in the unrecognized region `"Alpha"`. -/
def cexAlpha : Case :=
  ⟨.str "2024-03-15", "", "", "", "", "", "Alpha", "Office2"⟩

/-! ## Theorems

First the infrastructure lemmas (digit printing, association lists,
sorting, grid invariants), then one theorem per specification claim with
its witnesses and counterexamples. -/

theorem digitChar_inj :
    ∀ a ∈ List.range 10, ∀ b ∈ List.range 10, Nat.digitChar a = Nat.digitChar b → a = b := by
  decide

theorem natCharsAux_ne_nil (fuel n : Nat) (hf : 1 ≤ fuel) : natCharsAux fuel n ≠ [] := by
  match fuel, hf with
  | f + 1, _ =>
    unfold natCharsAux
    split
    · simp
    · simp

theorem natCharsAux_congr :
    ∀ f1 f2 n, 1 ≤ f1 → 1 ≤ f2 → n < 10 ^ f1 → n < 10 ^ f2 →
      natCharsAux f1 n = natCharsAux f2 n := by
  intro f1
  induction f1 with
  | zero => omega
  | succ f ih =>
    intro f2 n _ hf2 hn1 hn2
    match f2, hf2 with
    | g + 1, _ =>
      by_cases hsmall : n < 10
      · simp [natCharsAux, hsmall]
      · have hf1 : 1 ≤ f := by
          by_contra hc
          have : f = 0 := by omega
          subst this
          simp [pow_succ, pow_zero] at hn1
          omega
        have hg1 : 1 ≤ g := by
          by_contra hc
          have : g = 0 := by omega
          subst this
          simp [pow_succ, pow_zero] at hn2
          omega
        have hd1 : n / 10 < 10 ^ f := by
          apply Nat.div_lt_of_lt_mul
          calc n < 10 ^ (f + 1) := hn1
            _ = 10 * 10 ^ f := by ring
        have hd2 : n / 10 < 10 ^ g := by
          apply Nat.div_lt_of_lt_mul
          calc n < 10 ^ (g + 1) := hn2
            _ = 10 * 10 ^ g := by ring
        simp only [natCharsAux, if_neg hsmall]
        rw [ih g (n / 10) hf1 hg1 hd1 hd2]

theorem natCharsAux_inj :
    ∀ fuel n m, n < 10 ^ fuel → m < 10 ^ fuel → natCharsAux fuel n = natCharsAux fuel m →
      n = m := by
  intro fuel
  induction fuel with
  | zero =>
    intro n m hn hm _
    simp [pow_zero] at hn hm
    omega
  | succ f ih =>
    intro n m hn hm heq
    have hfn : ¬ n < 10 → 1 ≤ f := by
      intro h
      by_contra hc
      have : f = 0 := by omega
      subst this
      simp [pow_succ, pow_zero] at hn
      omega
    have hfm : ¬ m < 10 → 1 ≤ f := by
      intro h
      by_contra hc
      have : f = 0 := by omega
      subst this
      simp [pow_succ, pow_zero] at hm
      omega
    by_cases h1 : n < 10 <;> by_cases h2 : m < 10
    · simp only [natCharsAux, if_pos h1, if_pos h2, List.cons.injEq] at heq
      exact digitChar_inj n (List.mem_range.mpr h1) m (List.mem_range.mpr h2) heq.1
    · simp only [natCharsAux, if_pos h1, if_neg h2] at heq
      have := congrArg List.length heq
      simp at this
      exact absurd this (natCharsAux_ne_nil f (m / 10) (hfm h2))
    · simp only [natCharsAux, if_neg h1, if_pos h2] at heq
      have := congrArg List.length heq
      simp at this
      exact absurd this (natCharsAux_ne_nil f (n / 10) (hfn h1))
    · simp only [natCharsAux, if_neg h1, if_neg h2] at heq
      have hlen : ([Nat.digitChar (n % 10)] : List Char).length =
          ([Nat.digitChar (m % 10)] : List Char).length := by simp
      obtain ⟨heq1, heq2⟩ := List.append_inj' heq hlen
      have hdn : n / 10 < 10 ^ f := by
        apply Nat.div_lt_of_lt_mul
        calc n < 10 ^ (f + 1) := hn
          _ = 10 * 10 ^ f := by ring
      have hdm : m / 10 < 10 ^ f := by
        apply Nat.div_lt_of_lt_mul
        calc m < 10 ^ (f + 1) := hm
          _ = 10 * 10 ^ f := by ring
      have hdiv := ih (n / 10) (m / 10) hdn hdm heq1
      simp only [List.cons.injEq] at heq2
      have hmod := digitChar_inj (n % 10) (List.mem_range.mpr (Nat.mod_lt n (by omega)))
        (m % 10) (List.mem_range.mpr (Nat.mod_lt m (by omega))) heq2.1
      omega

theorem lt_ten_pow (n fuel : Nat) (h : n + 1 ≤ fuel) : n < 10 ^ fuel := by
  have h1 : n < 10 ^ (n + 1) := by
    have h0 : n < 10 ^ n := Nat.lt_pow_self (by omega) n
    calc n < 10 ^ n := h0
      _ ≤ 10 ^ (n + 1) := Nat.pow_le_pow_right (by omega) (by omega)
  calc n < 10 ^ (n + 1) := h1
    _ ≤ 10 ^ fuel := Nat.pow_le_pow_right (by omega) h

theorem natChars_injective : Function.Injective natChars := by
  intro n m heq
  have hn : natChars n = natCharsAux (n + m + 1) n :=
    natCharsAux_congr (n + 1) (n + m + 1) n (by omega) (by omega)
      (lt_ten_pow n (n + 1) (by omega)) (lt_ten_pow n (n + m + 1) (by omega))
  have hm : natChars m = natCharsAux (n + m + 1) m :=
    natCharsAux_congr (m + 1) (n + m + 1) m (by omega) (by omega)
      (lt_ten_pow m (m + 1) (by omega)) (lt_ten_pow m (n + m + 1) (by omega))
  exact natCharsAux_inj (n + m + 1) n m (lt_ten_pow n (n + m + 1) (by omega))
    (lt_ten_pow m (n + m + 1) (by omega)) (hn ▸ hm ▸ heq)

theorem monthKey_inj (y : Int) (a b : Nat) : monthKey y a = monthKey y b ↔ a = b := by
  constructor
  · intro h
    have hdata := congrArg String.data h
    simp only [monthKey] at hdata
    have h2 := List.append_cancel_left hdata
    simp only [List.cons.injEq, true_and] at h2
    exact natChars_injective h2
  · intro h
    rw [h]

theorem quarterKey_inj (y : Int) (a b : Nat) : quarterKey y a = quarterKey y b ↔ a = b := by
  constructor
  · intro h
    have hdata := congrArg String.data h
    simp only [quarterKey] at hdata
    have h2 := List.append_cancel_left hdata
    simp only [List.cons.injEq, true_and] at h2
    exact natChars_injective h2
  · intro h
    rw [h]

theorem alistGet?_recordSet_self (r : List (String × α)) (k : String) (v : α) :
    alistGet? (recordSet r k v) k = some v := by
  induction r with
  | nil => simp [recordSet, alistGet?]
  | cons p rest ih =>
    by_cases h : p.1 = k
    · simp [recordSet, h, alistGet?]
    · simp [recordSet, h, alistGet?, ih]

theorem alistGet?_recordSet_ne (r : List (String × α)) (k1 k : String) (v : α)
    (h : k1 ≠ k) : alistGet? (recordSet r k1 v) k = alistGet? r k := by
  induction r with
  | nil => simp [recordSet, alistGet?, h]
  | cons p rest ih =>
    by_cases hp : p.1 = k1
    · have hpk : p.1 ≠ k := by rw [hp]; exact h
      simp [recordSet, hp, alistGet?, h, hpk]
    · simp only [recordSet, if_neg hp]
      by_cases hpk : p.1 = k
      · simp [alistGet?, hpk]
      · simp [alistGet?, hpk, ih]

theorem recordGet0_recordSet_self (r : List (String × ℚ)) (k : String) (v : ℚ) :
    recordGet0 (recordSet r k v) k = v := by
  simp [recordGet0, alistGet?_recordSet_self]

theorem recordGet0_recordSet_ne (r : List (String × ℚ)) (k1 k : String) (v : ℚ)
    (h : k1 ≠ k) : recordGet0 (recordSet r k1 v) k = recordGet0 r k := by
  simp [recordGet0, alistGet?_recordSet_ne r k1 k v h]

theorem alistGet?_eq_none_iff (l : List (String × α)) (k : String) :
    alistGet? l k = none ↔ k ∉ l.map fun p => p.1 := by
  induction l with
  | nil => simp [alistGet?]
  | cons p rest ih =>
    by_cases h : p.1 = k
    · simp [alistGet?, h]
    · rw [alistGet?, if_neg h, ih]
      simp only [List.map_cons, List.mem_cons, not_or]
      exact ⟨fun hn => ⟨fun hc => h hc.symm, hn⟩, fun hn => hn.2⟩

theorem alistGet?_mem (l : List (String × α)) (k : String) (v : α)
    (h : alistGet? l k = some v) : (k, v) ∈ l := by
  induction l with
  | nil => simp [alistGet?] at h
  | cons p rest ih =>
    by_cases hp : p.1 = k
    · simp only [alistGet?, if_pos hp, Option.some.injEq] at h
      exact List.mem_cons.mpr (Or.inl (by rw [← hp, ← h]))
    · simp only [alistGet?, if_neg hp] at h
      exact List.mem_cons_of_mem p (ih h)

theorem alistGet?_of_mem_nodup (l : List (String × α)) (k : String) (v : α)
    (hnd : (l.map fun p => p.1).Nodup) (hmem : (k, v) ∈ l) : alistGet? l k = some v := by
  induction l with
  | nil => simp at hmem
  | cons p rest ih =>
    simp only [List.map_cons, List.nodup_cons] at hnd
    rcases List.mem_cons.mp hmem with heq | hmem2
    · rw [← heq]
      simp [alistGet?]
    · have hk : p.1 ≠ k := by
        intro hc
        exact hnd.1 (hc ▸ (List.mem_map.mpr ⟨(k, v), hmem2, rfl⟩))
      simp only [alistGet?, if_neg hk]
      exact ih hnd.2 hmem2

theorem mem_recordSet (r : List (String × α)) (k : String) (v : α) (p : String × α)
    (h : p ∈ recordSet r k v) : p ∈ r ∨ p = (k, v) := by
  induction r with
  | nil => simp [recordSet] at h; right; exact h
  | cons q rest ih =>
    by_cases hq : q.1 = k
    · simp only [recordSet, if_pos hq] at h
      rcases List.mem_cons.mp h with heq | hmem
      · right; exact heq
      · left; exact List.mem_cons_of_mem q hmem
    · simp only [recordSet, if_neg hq] at h
      rcases List.mem_cons.mp h with heq | hmem
      · left; exact heq ▸ List.mem_cons_self q rest
      · rcases ih hmem with h1 | h2
        · left; exact List.mem_cons_of_mem q h1
        · right; exact h2

theorem map_recordSet_of_get (r : List (String × α)) (k : String) (v s : α)
    (f : String × α → β) (hget : alistGet? r k = some s) (hf : f (k, v) = f (k, s)) :
    (recordSet r k v).map f = r.map f := by
  induction r with
  | nil => simp [alistGet?] at hget
  | cons p rest ih =>
    by_cases hp : p.1 = k
    · simp only [alistGet?, if_pos hp, Option.some.injEq] at hget
      simp only [recordSet, if_pos hp, List.map_cons]
      congr 1
      rw [hf]
      rw [← hp, ← hget]
    · simp only [alistGet?, if_neg hp] at hget
      simp only [recordSet, if_neg hp, List.map_cons, List.cons.injEq, true_and]
      exact ih hget

theorem sumVals_recordSet_add (r : List (String × ℚ)) (k : String) (a : ℚ) :
    sumVals (recordSet r k (recordGet0 r k + a)) = sumVals r + a := by
  induction r with
  | nil => simp [recordSet, recordGet0, alistGet?, sumVals]
  | cons p rest ih =>
    by_cases hp : p.1 = k
    · simp only [recordSet, if_pos hp, sumVals, List.map_cons, List.sum_cons, recordGet0,
        alistGet?, if_pos hp, Option.getD_some]
      ring
    · have hgd : recordGet0 (p :: rest) k = recordGet0 rest k := by
        simp [recordGet0, alistGet?, hp]
      rw [hgd]
      simp only [recordSet, if_neg hp, sumVals, List.map_cons, List.sum_cons]
      have hrec := ih
      simp only [sumVals] at hrec
      rw [hrec]
      ring

theorem insertLe_chain (le : α → α → Bool) (htot : ∀ a b, le a b = true ∨ le b a = true)
    (x : α) (l : List α) (hl : List.Chain' (fun a b => le a b = true) l) :
    List.Chain' (fun a b => le a b = true) (insertLe le x l) := by
  induction l with
  | nil => simp [insertLe]
  | cons y ys ih =>
    by_cases hxy : le x y = true
    · simp only [insertLe, if_pos hxy]
      exact List.Chain'.cons hxy hl
    · simp only [insertLe, if_neg hxy]
      have hyx : le y x = true := (htot x y).resolve_left hxy
      have hys := hl.tail
      have hins := ih hys
      cases ys with
      | nil => simp [insertLe]; exact hyx
      | cons z zs =>
        by_cases hxz : le x z = true
        · simp only [insertLe, if_pos hxz] at hins ⊢
          exact List.Chain'.cons hyx hins
        · simp only [insertLe, if_neg hxz] at hins ⊢
          have hyz : le y z = true := List.chain'_cons.mp hl |>.1
          exact List.Chain'.cons hyz hins

theorem sortLe_chain (le : α → α → Bool) (htot : ∀ a b, le a b = true ∨ le b a = true)
    (l : List α) : List.Chain' (fun a b => le a b = true) (sortLe le l) := by
  induction l with
  | nil => simp [sortLe]
  | cons x xs ih =>
    simp only [sortLe, List.foldr_cons]
    exact insertLe_chain le htot x _ ih

theorem insertLe_of_le (le : α → α → Bool) (x : α) (l : List α)
    (h : ∀ y ∈ l.head?, le x y = true) : insertLe le x l = x :: l := by
  cases l with
  | nil => simp [insertLe]
  | cons y ys => simp [insertLe, h y rfl]

theorem sortLe_of_chain (le : α → α → Bool) (l : List α)
    (hl : List.Chain' (fun a b => le a b = true) l) : sortLe le l = l := by
  induction l with
  | nil => simp [sortLe]
  | cons x xs ih =>
    simp only [sortLe, List.foldr_cons]
    have hxs := ih hl.tail
    simp only [sortLe] at hxs
    rw [hxs]
    apply insertLe_of_le
    intro y hy
    cases xs with
    | nil => simp at hy
    | cons z zs =>
      simp at hy
      rw [← hy]
      exact (List.chain'_cons.mp hl).1

theorem addCaseToSummary_month (s : MonthlySummary) (c : Case) :
    (addCaseToSummary s c).month = s.month := by
  unfold addCaseToSummary
  dsimp only
  split <;> split <;> rfl

theorem addCaseToSummary_year (s : MonthlySummary) (c : Case) :
    (addCaseToSummary s c).year = s.year := by
  unfold addCaseToSummary
  dsimp only
  split <;> split <;> rfl

theorem monthGrid_init (y : Int) : MonthGrid y (initMonths y) := by
  unfold MonthGrid initMonths
  rw [List.map_map]
  rfl

theorem monthGrid_caseStep (h : JsHost) (y : Int) (m : List (String × MonthlySummary))
    (c : Case) (hg : MonthGrid y m) : MonthGrid y (caseStep h y m c) := by
  unfold caseStep
  cases hp : parseDateInput h c.dateReceived with
  | none => exact hg
  | some d =>
    dsimp only
    split
    · exact hg
    · cases hget : alistGet? m (monthKey y (d.month.val + 1)) with
      | none => exact hg
      | some s =>
        unfold MonthGrid at hg ⊢
        rw [map_recordSet_of_get m _ _ s _ hget
          (by simp [addCaseToSummary_month, addCaseToSummary_year])]
        exact hg

theorem monthGrid_adjStep (y : Int) (m : List (String × MonthlySummary))
    (adj : BillingAdjustment) (hg : MonthGrid y m) : MonthGrid y (adjStep y m adj) := by
  unfold adjStep
  split
  · exact hg
  · dsimp only
    cases hget : alistGet? m (monthKey adj.year adj.month) with
    | none => exact hg
    | some s =>
      unfold MonthGrid at hg ⊢
      rw [map_recordSet_of_get m _ _ s _ hget (by simp)]
      exact hg

theorem monthGrid_foldl_case (h : JsHost) (y : Int) (cases : List Case)
    (m : List (String × MonthlySummary)) (hg : MonthGrid y m) :
    MonthGrid y (cases.foldl (caseStep h y) m) := by
  induction cases generalizing m with
  | nil => exact hg
  | cons c rest ih => exact ih _ (monthGrid_caseStep h y m c hg)

theorem monthGrid_foldl_adj (y : Int) (adjs : List BillingAdjustment)
    (m : List (String × MonthlySummary)) (hg : MonthGrid y m) :
    MonthGrid y (adjs.foldl (adjStep y) m) := by
  induction adjs generalizing m with
  | nil => exact hg
  | cons a rest ih => exact ih _ (monthGrid_adjStep y m a hg)

theorem monthGrid_monthlyMap (h : JsHost) (cases : List Case) (y : Int)
    (adjs : List BillingAdjustment) : MonthGrid y (monthlyMap h cases y adjs) :=
  monthGrid_foldl_adj y adjs _ (monthGrid_foldl_case h y cases _ (monthGrid_init y))

theorem monthGrid_keys (y : Int) (m : List (String × MonthlySummary)) (hg : MonthGrid y m) :
    m.map (fun p => p.1) = (List.range 12).map fun i => monthKey y (i + 1) := by
  have h1 := congrArg (List.map fun t : String × Nat × Int => t.1) hg
  simpa [List.map_map, Function.comp] using h1

theorem monthGrid_nodup (y : Int) (m : List (String × MonthlySummary)) (hg : MonthGrid y m) :
    (m.map fun p => p.1).Nodup := by
  rw [monthGrid_keys y m hg]
  apply List.Nodup.map
  · intro a b hab
    have := (monthKey_inj y (a + 1) (b + 1)).mp hab
    omega
  · exact List.nodup_range 12

theorem monthGrid_get (y : Int) (m : List (String × MonthlySummary)) (hg : MonthGrid y m)
    (mo : Nat) (h1 : 1 ≤ mo) (h2 : mo ≤ 12) :
    ∃ s, alistGet? m (monthKey y mo) = some s ∧ s.month = mo ∧ s.year = y := by
  have hkeys := monthGrid_keys y m hg
  have hmem : monthKey y mo ∈ m.map fun p => p.1 := by
    rw [hkeys]
    exact List.mem_map.mpr ⟨mo - 1, List.mem_range.mpr (by omega), by congr 1; omega⟩
  cases hget : alistGet? m (monthKey y mo) with
  | none => exact absurd hmem ((alistGet?_eq_none_iff m (monthKey y mo)).mp hget)
  | some s =>
    refine ⟨s, rfl, ?_⟩
    have hm := alistGet?_mem m (monthKey y mo) s hget
    have : (monthKey y mo, s.month, s.year) ∈
        (List.range 12).map fun i => (monthKey y (i + 1), i + 1, y) := by
      rw [← hg]
      exact List.mem_map.mpr ⟨(monthKey y mo, s), hm, rfl⟩
    obtain ⟨i, _, heq⟩ := List.mem_map.mp this
    have hkey : monthKey y (i + 1) = monthKey y mo := (Prod.ext_iff.mp heq).1
    have hio : i + 1 = mo := (monthKey_inj y (i + 1) mo).mp hkey
    have hrest := (Prod.ext_iff.mp heq).2
    have hmo : s.month = i + 1 := ((Prod.ext_iff.mp hrest).1).symm
    have hyr : s.year = y := ((Prod.ext_iff.mp hrest).2).symm
    exact ⟨by omega, hyr⟩

theorem mem_values_monthGrid (y : Int) (m : List (String × MonthlySummary))
    (hg : MonthGrid y m) (s : MonthlySummary) (hs : s ∈ m.map fun p => p.2) :
    1 ≤ s.month ∧ s.month ≤ 12 ∧ s.year = y ∧ alistGet? m (monthKey y s.month) = some s := by
  obtain ⟨p, hp, hps⟩ := List.mem_map.mp hs
  have : (p.1, s.month, s.year) ∈
      (List.range 12).map fun i => (monthKey y (i + 1), i + 1, y) := by
    rw [← hg]
    exact List.mem_map.mpr ⟨p, hp, by rw [hps]⟩
  obtain ⟨i, hi, heq⟩ := List.mem_map.mp this
  have hkey : monthKey y (i + 1) = p.1 := (Prod.ext_iff.mp heq).1
  have hrest := (Prod.ext_iff.mp heq).2
  have hmo : s.month = i + 1 := ((Prod.ext_iff.mp hrest).1).symm
  have hyr : s.year = y := ((Prod.ext_iff.mp hrest).2).symm
  have hrange := List.mem_range.mp hi
  refine ⟨by omega, by omega, hyr, ?_⟩
  apply alistGet?_of_mem_nodup m _ s (monthGrid_nodup y m hg)
  have : p = (monthKey y s.month, s) := by
    rw [hmo, hkey]
    rw [← hps]
  rw [← this]
  exact hp

theorem monthGrid_values_months (y : Int) (m : List (String × MonthlySummary))
    (hg : MonthGrid y m) :
    (m.map fun p => p.2).map (fun s => s.month) = (List.range 12).map fun i => i + 1 := by
  have h1 := congrArg (List.map fun t : String × Nat × Int => t.2.1) hg
  simpa [List.map_map, Function.comp] using h1

theorem monthGrid_sort_id (y : Int) (m : List (String × MonthlySummary))
    (hg : MonthGrid y m) :
    sortLe (fun a b => a.month ≤ b.month) (m.map fun p => p.2) = m.map fun p => p.2 := by
  apply sortLe_of_chain
  have hch : List.Chain' (fun a b : Nat => a ≤ b) ((m.map fun p => p.2).map fun s => s.month) := by
    rw [monthGrid_values_months y m hg]
    simp [List.range_succ]
  have hch2 := (List.chain'_map (fun s : MonthlySummary => s.month)).mp hch
  exact hch2.imp fun a b hab => by simpa using hab

theorem monthlySummary_eq_values (h : JsHost) (cases : List Case) (y : Int)
    (adjs : List BillingAdjustment) :
    monthlySummary h cases y adjs = (monthlyMap h cases y adjs).map fun p => p.2 := by
  unfold monthlySummary
  exact monthGrid_sort_id y _ (monthGrid_monthlyMap h cases y adjs)

theorem addCaseToQuarter_quarter (s : QuarterSummary) (c : Case) :
    (addCaseToQuarter s c).quarter = s.quarter := by
  unfold addCaseToQuarter
  dsimp only
  split <;> split <;> rfl

theorem quarterGrid_init (y : Int) : QuarterGrid y (initQuarters y) := by
  unfold QuarterGrid initQuarters
  rw [List.map_map]
  rfl

theorem quarterGrid_step (h : JsHost) (y : Int) (m : List (String × QuarterSummary))
    (c : Case) (hg : QuarterGrid y m) : QuarterGrid y (quarterStep h y m c) := by
  unfold quarterStep
  cases hp : parseDateInput h c.dateReceived with
  | none => exact hg
  | some d =>
    dsimp only
    split
    · exact hg
    · cases hget : alistGet? m (quarterKey y (d.month.val / 3 + 1)) with
      | none => exact hg
      | some s =>
        unfold QuarterGrid at hg ⊢
        rw [map_recordSet_of_get m _ _ s _ hget (by simp [addCaseToQuarter_quarter])]
        exact hg

theorem quarterGrid_foldl (h : JsHost) (y : Int) (cases : List Case)
    (m : List (String × QuarterSummary)) (hg : QuarterGrid y m) :
    QuarterGrid y (cases.foldl (quarterStep h y) m) := by
  induction cases generalizing m with
  | nil => exact hg
  | cons c rest ih => exact ih _ (quarterGrid_step h y m c hg)

theorem quarterGrid_quarterlyMap (h : JsHost) (cases : List Case) (y : Int) :
    QuarterGrid y (quarterlyMap h cases y) :=
  quarterGrid_foldl h y cases _ (quarterGrid_init y)


theorem quarterGrid_keys (y : Int) (m : List (String × QuarterSummary)) (hg : QuarterGrid y m) :
    m.map (fun p => p.1) = (List.range 4).map fun i => quarterKey y (i + 1) := by
  have h1 := congrArg (List.map fun t : String × Nat => t.1) hg
  simpa [List.map_map, Function.comp] using h1

theorem quarterGrid_nodup (y : Int) (m : List (String × QuarterSummary)) (hg : QuarterGrid y m) :
    (m.map fun p => p.1).Nodup := by
  rw [quarterGrid_keys y m hg]
  apply List.Nodup.map
  · intro a b hab
    have := (quarterKey_inj y (a + 1) (b + 1)).mp hab
    omega
  · exact List.nodup_range 4

theorem mem_values_quarterGrid (y : Int) (m : List (String × QuarterSummary))
    (hg : QuarterGrid y m) (s : QuarterSummary) (hs : s ∈ m.map fun p => p.2) :
    1 ≤ s.quarter ∧ s.quarter ≤ 4 ∧ alistGet? m (quarterKey y s.quarter) = some s := by
  obtain ⟨p, hp, hps⟩ := List.mem_map.mp hs
  have : (p.1, s.quarter) ∈ (List.range 4).map fun i => (quarterKey y (i + 1), i + 1) := by
    rw [← hg]
    exact List.mem_map.mpr ⟨p, hp, by rw [hps]⟩
  obtain ⟨i, hi, heq⟩ := List.mem_map.mp this
  have hkey : quarterKey y (i + 1) = p.1 := (Prod.ext_iff.mp heq).1
  have hq : s.quarter = i + 1 := ((Prod.ext_iff.mp heq).2).symm
  have hrange := List.mem_range.mp hi
  refine ⟨by omega, by omega, ?_⟩
  apply alistGet?_of_mem_nodup m _ s (quarterGrid_nodup y m hg)
  have : p = (quarterKey y s.quarter, s) := by
    rw [hq, hkey]
    rw [← hps]
  rw [← this]
  exact hp

theorem quarterGrid_values_quarters (y : Int) (m : List (String × QuarterSummary))
    (hg : QuarterGrid y m) :
    (m.map fun p => p.2).map (fun s => s.quarter) = (List.range 4).map fun i => i + 1 := by
  have h1 := congrArg (List.map fun t : String × Nat => t.2) hg
  simpa [List.map_map, Function.comp] using h1

theorem quarterGrid_sort_id (y : Int) (m : List (String × QuarterSummary))
    (hg : QuarterGrid y m) :
    sortLe (fun a b => a.quarter ≤ b.quarter) (m.map fun p => p.2) = m.map fun p => p.2 := by
  apply sortLe_of_chain
  have hch : List.Chain' (fun a b : Nat => a ≤ b)
      ((m.map fun p => p.2).map fun s => s.quarter) := by
    rw [quarterGrid_values_quarters y m hg]
    simp [List.range_succ]
  have hch2 := (List.chain'_map (fun s : QuarterSummary => s.quarter)).mp hch
  exact hch2.imp fun a b hab => by simpa using hab

theorem quarterlySummary_eq_values (h : JsHost) (cases : List Case) (y : Int) :
    quarterlySummary h cases y = (quarterlyMap h cases y).map fun p => p.2 := by
  unfold quarterlySummary
  exact quarterGrid_sort_id y _ (quarterGrid_quarterlyMap h cases y)

theorem alistGet?_rangeMap (kf : Nat → String) (g : Nat → β) :
    ∀ (n j : Nat), (∀ a b, kf a = kf b → a = b) → j < n →
      alistGet? ((List.range n).map fun i => (kf i, g i)) (kf j) = some (g j) := by
  intro n
  induction n generalizing kf g with
  | zero => intro j _ hj; omega
  | succ n ih =>
    intro j hkf hj
    rw [List.range_succ_eq_map, List.map_cons, List.map_map]
    by_cases h0 : j = 0
    · subst h0
      simp [alistGet?]
    · have hne : kf 0 ≠ kf j := fun hc => h0 (hkf 0 j hc).symm
      simp only [alistGet?, if_neg hne]
      obtain ⟨j2, rfl⟩ : ∃ j2, j = j2 + 1 := ⟨j - 1, by omega⟩
      have := ih (fun i => kf (i + 1)) (fun i => g (i + 1)) j2
        (fun a b hab => by have := hkf (a + 1) (b + 1) hab; omega) (by omega)
      simpa [Function.comp] using this

theorem alistGet?_initMonths (y : Int) (mo : Nat) (h1 : 1 ≤ mo) (h2 : mo ≤ 12) :
    alistGet? (initMonths y) (monthKey y mo) = some ⟨mo, y, [], 0⟩ := by
  obtain ⟨k, rfl⟩ : ∃ k, mo = k + 1 := ⟨mo - 1, by omega⟩
  exact alistGet?_rangeMap (fun i => monthKey y (i + 1))
    (fun i => (⟨i + 1, y, [], 0⟩ : MonthlySummary)) 12 k
    (fun a b hab => by have := (monthKey_inj y (a + 1) (b + 1)).mp hab; omega) (by omega)

theorem alistGet?_initQuarters (y : Int) (q : Nat) (h1 : 1 ≤ q) (h2 : q ≤ 4) :
    alistGet? (initQuarters y) (quarterKey y q) = some ⟨q, [], 0⟩ := by
  obtain ⟨k, rfl⟩ : ∃ k, q = k + 1 := ⟨q - 1, by omega⟩
  exact alistGet?_rangeMap (fun i => quarterKey y (i + 1))
    (fun i => (⟨i + 1, [], 0⟩ : QuarterSummary)) 4 k
    (fun a b hab => by have := (quarterKey_inj y (a + 1) (b + 1)).mp hab; omega) (by omega)

theorem get_caseStep_not_lands (h : JsHost) (y : Int) (m : List (String × MonthlySummary))
    (c : Case) (mo : Nat) (hnl : ¬ landsInMonth h y mo c) :
    alistGet? (caseStep h y m c) (monthKey y mo) = alistGet? m (monthKey y mo) := by
  unfold caseStep
  cases hp : parseDateInput h c.dateReceived with
  | none => rfl
  | some d =>
    dsimp only
    split
    · rfl
    · rename_i hyr
      push_neg at hyr
      have hmo : d.month.val + 1 ≠ mo := by
        intro hc
        apply hnl
        unfold landsInMonth
        rw [hp]
        exact ⟨hyr, hc⟩
      cases hget : alistGet? m (monthKey y (d.month.val + 1)) with
      | none => rfl
      | some s =>
        exact alistGet?_recordSet_ne m _ _ _ fun hc => hmo ((monthKey_inj y _ mo).mp hc)

theorem get_adjStep_not_target (y : Int) (m : List (String × MonthlySummary))
    (adj : BillingAdjustment) (mo : Nat) (hnt : ¬ (adj.year = y ∧ adj.month = mo)) :
    alistGet? (adjStep y m adj) (monthKey y mo) = alistGet? m (monthKey y mo) := by
  unfold adjStep
  split
  · rfl
  · rename_i hyr
    push_neg at hyr
    have hmo : adj.month ≠ mo := fun hc => hnt ⟨hyr, hc⟩
    dsimp only
    cases hget : alistGet? m (monthKey adj.year adj.month) with
    | none => rfl
    | some s =>
      rw [hyr]
      exact alistGet?_recordSet_ne m _ _ _ fun hc => hmo ((monthKey_inj y _ mo).mp hc)

theorem get_foldl_case_not_lands (h : JsHost) (y : Int) (cases : List Case)
    (m : List (String × MonthlySummary)) (mo : Nat)
    (hnl : ∀ c ∈ cases, ¬ landsInMonth h y mo c) :
    alistGet? (cases.foldl (caseStep h y) m) (monthKey y mo) = alistGet? m (monthKey y mo) := by
  induction cases generalizing m with
  | nil => rfl
  | cons c rest ih =>
    rw [List.foldl_cons, ih _ fun x hx => hnl x (List.mem_cons_of_mem c hx),
      get_caseStep_not_lands h y m c mo (hnl c (List.mem_cons_self c rest))]

theorem get_foldl_adj_not_target (y : Int) (adjs : List BillingAdjustment)
    (m : List (String × MonthlySummary)) (mo : Nat)
    (hnt : ∀ a ∈ adjs, ¬ (a.year = y ∧ a.month = mo)) :
    alistGet? (adjs.foldl (adjStep y) m) (monthKey y mo) = alistGet? m (monthKey y mo) := by
  induction adjs generalizing m with
  | nil => rfl
  | cons a rest ih =>
    rw [List.foldl_cons, ih _ fun x hx => hnt x (List.mem_cons_of_mem a hx),
      get_adjStep_not_target y m a mo (hnt a (List.mem_cons_self a rest))]

theorem get_quarterStep_not_lands (h : JsHost) (y : Int) (m : List (String × QuarterSummary))
    (c : Case) (q : Nat) (hnl : ¬ landsInQuarter h y q c) :
    alistGet? (quarterStep h y m c) (quarterKey y q) = alistGet? m (quarterKey y q) := by
  unfold quarterStep
  cases hp : parseDateInput h c.dateReceived with
  | none => rfl
  | some d =>
    dsimp only
    split
    · rfl
    · rename_i hyr
      push_neg at hyr
      have hq : d.month.val / 3 + 1 ≠ q := by
        intro hc
        apply hnl
        unfold landsInQuarter
        rw [hp]
        exact ⟨hyr, hc⟩
      cases hget : alistGet? m (quarterKey y (d.month.val / 3 + 1)) with
      | none => rfl
      | some s =>
        exact alistGet?_recordSet_ne m _ _ _ fun hc => hq ((quarterKey_inj y _ q).mp hc)

theorem get_foldl_quarter_not_lands (h : JsHost) (y : Int) (cases : List Case)
    (m : List (String × QuarterSummary)) (q : Nat)
    (hnl : ∀ c ∈ cases, ¬ landsInQuarter h y q c) :
    alistGet? (cases.foldl (quarterStep h y) m) (quarterKey y q) =
      alistGet? m (quarterKey y q) := by
  induction cases generalizing m with
  | nil => rfl
  | cons c rest ih =>
    rw [List.foldl_cons, ih _ fun x hx => hnl x (List.mem_cons_of_mem c hx),
      get_quarterStep_not_lands h y m c q (hnl c (List.mem_cons_self c rest))]

theorem obsType_adjStep (y : Int) (m : List (String × MonthlySummary))
    (adj : BillingAdjustment) (mo : Nat) (ty : String) (hg : MonthGrid y m)
    (h1 : 1 ≤ mo) (h2 : mo ≤ 12) :
    obsType y (adjStep y m adj) mo ty =
      obsType y m mo ty +
        (if adj.year = y ∧ adj.month = mo ∧ adj.type = ty then adj.amount else 0) := by
  by_cases hyr : adj.year = y
  · unfold adjStep
    rw [if_neg (by simpa using hyr)]
    dsimp only
    cases hget : alistGet? m (monthKey adj.year adj.month) with
    | none =>
      have hmo : adj.month ≠ mo := by
        intro hc
        obtain ⟨s, hs, _, _⟩ := monthGrid_get y m hg mo h1 h2
        rw [hyr, hc, hs] at hget
        exact Option.noConfusion hget
      rw [if_neg fun hc => hmo hc.2.1]
      ring
    | some s =>
      by_cases hmo : adj.month = mo
      · subst hmo
        unfold obsType
        rw [hyr] at hget ⊢
        rw [alistGet?_recordSet_self, hget]
        by_cases hty : adj.type = ty
        · subst hty
          rw [if_pos ⟨rfl, rfl, rfl⟩]
          dsimp only
          rw [recordGet0_recordSet_self]
        · rw [if_neg fun hc => hty hc.2.2]
          dsimp only
          rw [recordGet0_recordSet_ne _ _ _ _ hty]
          ring
      · unfold obsType
        rw [hyr]
        rw [alistGet?_recordSet_ne m _ _ _ fun hc => hmo ((monthKey_inj y _ mo).mp hc)]
        rw [if_neg fun hc => hmo hc.2.1]
        ring
  · unfold adjStep
    rw [if_pos (by simpa using hyr), if_neg fun hc => hyr hc.1]
    ring

theorem obsTotal_adjStep (y : Int) (m : List (String × MonthlySummary))
    (adj : BillingAdjustment) (mo : Nat) (hg : MonthGrid y m) (h1 : 1 ≤ mo) (h2 : mo ≤ 12) :
    obsTotal y (adjStep y m adj) mo =
      obsTotal y m mo + (if adj.year = y ∧ adj.month = mo then adj.amount else 0) := by
  by_cases hyr : adj.year = y
  · unfold adjStep
    rw [if_neg (by simpa using hyr)]
    dsimp only
    cases hget : alistGet? m (monthKey adj.year adj.month) with
    | none =>
      have hmo : adj.month ≠ mo := by
        intro hc
        obtain ⟨s, hs, _, _⟩ := monthGrid_get y m hg mo h1 h2
        rw [hyr, hc, hs] at hget
        exact Option.noConfusion hget
      rw [if_neg fun hc => hmo hc.2]
      ring
    | some s =>
      by_cases hmo : adj.month = mo
      · subst hmo
        unfold obsTotal
        rw [hyr] at hget ⊢
        rw [alistGet?_recordSet_self, hget, if_pos ⟨rfl, rfl⟩]
      · unfold obsTotal
        rw [hyr]
        rw [alistGet?_recordSet_ne m _ _ _ fun hc => hmo ((monthKey_inj y _ mo).mp hc)]
        rw [if_neg fun hc => hmo hc.2]
        ring
  · unfold adjStep
    rw [if_pos (by simpa using hyr), if_neg fun hc => hyr hc.1]
    ring

theorem obsType_foldl_adj (y : Int) (adjs : List BillingAdjustment)
    (m : List (String × MonthlySummary)) (mo : Nat) (ty : String) (hg : MonthGrid y m)
    (h1 : 1 ≤ mo) (h2 : mo ≤ 12) :
    obsType y (adjs.foldl (adjStep y) m) mo ty = obsType y m mo ty + adjSumType y mo ty adjs := by
  induction adjs generalizing m with
  | nil => simp [adjSumType]
  | cons a rest ih =>
    rw [List.foldl_cons, ih _ (monthGrid_adjStep y m a hg),
      obsType_adjStep y m a mo ty hg h1 h2]
    simp only [adjSumType, List.map_cons, List.sum_cons]
    ring

theorem obsTotal_foldl_adj (y : Int) (adjs : List BillingAdjustment)
    (m : List (String × MonthlySummary)) (mo : Nat) (hg : MonthGrid y m)
    (h1 : 1 ≤ mo) (h2 : mo ≤ 12) :
    obsTotal y (adjs.foldl (adjStep y) m) mo = obsTotal y m mo + adjSumTotal y mo adjs := by
  induction adjs generalizing m with
  | nil => simp [adjSumTotal]
  | cons a rest ih =>
    rw [List.foldl_cons, ih _ (monthGrid_adjStep y m a hg),
      obsTotal_adjStep y m a mo hg h1 h2]
    simp only [adjSumTotal, List.map_cons, List.sum_cons]
    ring

theorem sumVals_addCase (s : MonthlySummary) (c : Case)
    (hb : sumVals s.typeAmounts = s.total) :
    sumVals (addCaseToSummary s c).typeAmounts = (addCaseToSummary s c).total := by
  unfold addCaseToSummary
  dsimp only
  split
  · split
    · dsimp only
      rw [sumVals_recordSet_add, sumVals_recordSet_add, hb]
    · dsimp only
      rw [sumVals_recordSet_add, hb]
  · split
    · dsimp only
      rw [sumVals_recordSet_add, hb]
    · exact hb

theorem sumBal_init (y : Int) : SumBal (initMonths y) := by
  intro p hp
  obtain ⟨i, _, heq⟩ := List.mem_map.mp hp
  rw [← heq]
  simp [sumVals]

theorem sumBal_caseStep (h : JsHost) (y : Int) (m : List (String × MonthlySummary))
    (c : Case) (hb : SumBal m) : SumBal (caseStep h y m c) := by
  unfold caseStep
  cases hp : parseDateInput h c.dateReceived with
  | none => exact hb
  | some d =>
    dsimp only
    split
    · exact hb
    · cases hget : alistGet? m (monthKey y (d.month.val + 1)) with
      | none => exact hb
      | some s =>
        intro p hpm
        rcases mem_recordSet m _ _ p hpm with hmem | hnew
        · exact hb p hmem
        · rw [hnew]
          exact sumVals_addCase s c (hb _ (alistGet?_mem m _ s hget))

theorem sumBal_adjStep (y : Int) (m : List (String × MonthlySummary))
    (adj : BillingAdjustment) (hb : SumBal m) : SumBal (adjStep y m adj) := by
  unfold adjStep
  split
  · exact hb
  · dsimp only
    cases hget : alistGet? m (monthKey adj.year adj.month) with
    | none => exact hb
    | some s =>
      intro p hpm
      rcases mem_recordSet m _ _ p hpm with hmem | hnew
      · exact hb p hmem
      · rw [hnew]
        dsimp only
        rw [sumVals_recordSet_add]
        rw [hb _ (alistGet?_mem m _ s hget)]

theorem sumBal_foldl_case (h : JsHost) (y : Int) (cases : List Case)
    (m : List (String × MonthlySummary)) (hb : SumBal m) :
    SumBal (cases.foldl (caseStep h y) m) := by
  induction cases generalizing m with
  | nil => exact hb
  | cons c rest ih => exact ih _ (sumBal_caseStep h y m c hb)

theorem sumBal_foldl_adj (y : Int) (adjs : List BillingAdjustment)
    (m : List (String × MonthlySummary)) (hb : SumBal m) :
    SumBal (adjs.foldl (adjStep y) m) := by
  induction adjs generalizing m with
  | nil => exact hb
  | cons a rest ih => exact ih _ (sumBal_adjStep y m a hb)

theorem sumBal_monthlyMap (h : JsHost) (cases : List Case) (y : Int)
    (adjs : List BillingAdjustment) : SumBal (monthlyMap h cases y adjs) :=
  sumBal_foldl_adj y adjs _ (sumBal_foldl_case h y cases _ (sumBal_init y))

theorem typeTotals_snd (summary : List MonthlySummary) :
    (typeTotals summary).2 = (summary.map fun s => sumVals s.typeAmounts).sum := by
  have hinner : ∀ (r : List (String × ℚ)) (acc : List (String × ℚ) × ℚ),
      (r.foldl (fun acc2 p =>
        (recordSet acc2.1 p.1 (recordGet0 acc2.1 p.1 + p.2), acc2.2 + p.2)) acc).2 =
        acc.2 + sumVals r := by
    intro r
    induction r with
    | nil => intro acc; simp [sumVals]
    | cons p rest ih =>
      intro acc
      rw [List.foldl_cons, ih]
      simp only [sumVals, List.map_cons, List.sum_cons]
      ring
  have houter : ∀ (l : List MonthlySummary) (acc : List (String × ℚ) × ℚ),
      (l.foldl (fun acc mo => mo.typeAmounts.foldl (fun acc2 p =>
        (recordSet acc2.1 p.1 (recordGet0 acc2.1 p.1 + p.2), acc2.2 + p.2)) acc) acc).2 =
        acc.2 + (l.map fun s => sumVals s.typeAmounts).sum := by
    intro l
    induction l with
    | nil => intro acc; simp
    | cons s rest ih =>
      intro acc
      rw [List.foldl_cons, ih, hinner]
      simp only [List.map_cons, List.sum_cons]
      ring
  have := houter summary ([], 0)
  unfold typeTotals
  rw [this]
  simp

theorem monthGrid_length (y : Int) (m : List (String × MonthlySummary)) (hg : MonthGrid y m) :
    m.length = 12 := by
  have := congrArg List.length hg
  simpa using this

theorem values_map_total (y : Int) (m : List (String × MonthlySummary)) (hg : MonthGrid y m) :
    (m.map fun p => p.2).map (fun s => s.total) =
      (List.range 12).map fun i => obsTotal y m (i + 1) := by
  have hlen : m.length = 12 := monthGrid_length y m hg
  apply List.ext_getElem
  · simp [hlen]
  · intro i h1 h2
    simp only [List.length_map, hlen] at h1
    have hmi : i < m.length := by omega
    have hfi := congrArg (fun l => l[i]?) hg
    simp only [List.getElem?_map, List.getElem?_range (by omega : i < 12),
      List.getElem?_eq_getElem hmi, Option.map_some', Option.some.injEq,
      Prod.mk.injEq] at hfi
    have hkey : m[i].1 = monthKey y (i + 1) := hfi.1
    have hget : alistGet? m (monthKey y (i + 1)) = some m[i].2 := by
      apply alistGet?_of_mem_nodup m _ _ (monthGrid_nodup y m hg)
      have hpair : (monthKey y (i + 1), m[i].2) = m[i] := by
        rw [← hkey]
      rw [hpair]
      exact List.getElem_mem hmi
    simp only [List.getElem_map, List.getElem_range]
    unfold obsTotal
    rw [hget]

theorem typeTotals_values (y : Int) (m : List (String × MonthlySummary)) (hg : MonthGrid y m)
    (hb : SumBal m) :
    (typeTotals (m.map fun p => p.2)).2 =
      ((List.range 12).map fun i => obsTotal y m (i + 1)).sum := by
  rw [typeTotals_snd]
  have hcongr : (m.map fun p => p.2).map (fun s => sumVals s.typeAmounts) =
      (m.map fun p => p.2).map fun s => s.total := by
    apply List.map_congr_left
    intro s hs
    obtain ⟨p, hp, hps⟩ := List.mem_map.mp hs
    rw [← hps]
    exact hb p hp
  rw [hcongr, values_map_total y m hg]

/-! ### Claim theorems -/

/-- C1: for the single record with date-received 2024-03-15, type `"Full"`
and amount `"50000"`, the monthly aggregation for year 2024 with no
adjustments yields a March bucket with `"Full"` sum 50000 and month total
50000, all other eleven month totals 0, and a grand total of 50000. -/
theorem claim_C1_monthly_scenario :
    ((monthlySummary refHost [scenarioCase] 2024 []).map fun s =>
        (s.month, recordGet0 s.typeAmounts "Full", s.total)) =
      [(1, 0, 0), (2, 0, 0), (3, 50000, 50000), (4, 0, 0), (5, 0, 0), (6, 0, 0), (7, 0, 0),
        (8, 0, 0), (9, 0, 0), (10, 0, 0), (11, 0, 0), (12, 0, 0)] ∧
    (typeTotals (monthlySummary refHost [scenarioCase] 2024 [])).2 = 50000 := by
  constructor
  · decide
  · decide

/-- C2: for every case list, selected year and adjustment list, the monthly
aggregation has exactly one bucket per month 1–12 of the selected year and
the quarterly aggregation exactly one bucket per quarter 1–4, and a bucket
whose period no record or adjustment falls in holds only zero sums — the
dense-grid invariant. -/
theorem claim_C2_dense_grid (h : JsHost) (cases : List Case) (y : Int)
    (adjs : List BillingAdjustment) :
    ((monthlySummary h cases y adjs).map fun s => (s.month, s.year)) =
      ((List.range 12).map fun i => (i + 1, y)) ∧
    (∀ s ∈ monthlySummary h cases y adjs,
      (∀ c ∈ cases, ¬ landsInMonth h y s.month c) →
      (∀ a ∈ adjs, ¬ (a.year = y ∧ a.month = s.month)) →
      (∀ ty, recordGet0 s.typeAmounts ty = 0) ∧ s.total = 0) ∧
    ((quarterlySummary h cases y).map fun s => s.quarter) = [1, 2, 3, 4] ∧
    (∀ q ∈ quarterlySummary h cases y,
      (∀ c ∈ cases, ¬ landsInQuarter h y q.quarter c) →
      (∀ ty, recordGet0 q.typeAmounts ty = 0) ∧ q.total = 0) := by
  have hgm := monthGrid_monthlyMap h cases y adjs
  have hgq := quarterGrid_quarterlyMap h cases y
  refine ⟨?_, ?_, ?_, ?_⟩
  · rw [monthlySummary_eq_values]
    have h1 := congrArg (List.map fun t : String × Nat × Int => (t.2.1, t.2.2)) hgm
    simpa [List.map_map, Function.comp] using h1
  · intro s hs hnc hna
    rw [monthlySummary_eq_values] at hs
    obtain ⟨hm1, hm2, _, hget⟩ := mem_values_monthGrid y _ hgm s hs
    have hinit : alistGet? (monthlyMap h cases y adjs) (monthKey y s.month) =
        some ⟨s.month, y, [], 0⟩ := by
      unfold monthlyMap
      rw [get_foldl_adj_not_target y adjs _ s.month hna,
        get_foldl_case_not_lands h y cases _ s.month hnc,
        alistGet?_initMonths y s.month hm1 hm2]
    rw [hinit] at hget
    have hsd : s = ⟨s.month, y, [], 0⟩ := (Option.some.injEq _ _).mp hget.symm
    constructor
    · intro ty
      rw [hsd]
      simp [recordGet0, alistGet?]
    · rw [hsd]
  · rw [quarterlySummary_eq_values]
    have h1 := congrArg (List.map fun t : String × Nat => t.2) hgq
    have h2 : ((quarterlyMap h cases y).map fun p => p.2).map (fun s => s.quarter) =
        (List.range 4).map fun i => i + 1 := by
      simpa [List.map_map, Function.comp] using h1
    calc ((quarterlyMap h cases y).map fun p => p.2).map (fun s => s.quarter)
        = (List.range 4).map fun i => i + 1 := h2
      _ = [1, 2, 3, 4] := by decide
  · intro q hq hnc
    rw [quarterlySummary_eq_values] at hq
    obtain ⟨hq1, hq2, hget⟩ := mem_values_quarterGrid y _ hgq q hq
    have hinit : alistGet? (quarterlyMap h cases y) (quarterKey y q.quarter) =
        some ⟨q.quarter, [], 0⟩ := by
      unfold quarterlyMap
      rw [get_foldl_quarter_not_lands h y cases _ q.quarter hnc,
        alistGet?_initQuarters y q.quarter hq1 hq2]
    rw [hinit] at hget
    have hqd : q = ⟨q.quarter, [], 0⟩ := (Option.some.injEq _ _).mp hget.symm
    constructor
    · intro ty
      rw [hqd]
      simp [recordGet0, alistGet?]
    · rw [hqd]

/-- Witness for C2: with no cases and no adjustments the January bucket and
the Q1 bucket exist and hold zero sums. -/
theorem claim_C2_dense_grid_witness :
    recordGet0 (MonthlySummary.mk 1 2024 [] 0).typeAmounts "Full" = 0 ∧
    (MonthlySummary.mk 1 2024 [] 0).total = 0 ∧
    recordGet0 (QuarterSummary.mk 1 [] 0).typeAmounts "Full" = 0 ∧
    (QuarterSummary.mk 1 [] 0).total = 0 := by
  have h2 := (claim_C2_dense_grid refHost [] 2024 []).2.1 ⟨1, 2024, [], 0⟩ (by decide)
    (fun c hc => absurd hc (List.not_mem_nil c)) (fun a ha => absurd ha (List.not_mem_nil a))
  have h4 := (claim_C2_dense_grid refHost [] 2024 []).2.2.2 ⟨1, [], 0⟩ (by decide)
    (fun c hc => absurd hc (List.not_mem_nil c))
  exact ⟨h2.1 "Full", h2.2, h4.1 "Full", h4.2⟩

theorem adjStep_noop (y : Int) (m : List (String × MonthlySummary)) (adj : BillingAdjustment)
    (hg : MonthGrid y m)
    (hout : adj.year ≠ y ∨ alistGet? (initMonths y) (monthKey adj.year adj.month) = none) :
    adjStep y m adj = m := by
  rcases hout with hyr | hnone
  · unfold adjStep
    rw [if_pos hyr]
  · unfold adjStep
    split
    · rfl
    · rename_i hyr
      push_neg at hyr
      have hmiss : alistGet? m (monthKey adj.year adj.month) = none := by
        rw [alistGet?_eq_none_iff, monthGrid_keys y m hg]
        rw [alistGet?_eq_none_iff, monthGrid_keys y _ (monthGrid_init y)] at hnone
        exact hnone
      dsimp only
      rw [hmiss]

/-- C3: an adjustment whose (year, month) bucket is absent from the current
aggregation grid — in particular one whose year differs from the selected
year — leaves every bucket, every month total and the grand total exactly
as they would be without it; it is skipped silently. -/
theorem claim_C3_out_of_grid_adjustment_noop (h : JsHost) (cases : List Case) (y : Int)
    (adjs1 adjs2 : List BillingAdjustment) (adj : BillingAdjustment)
    (hout : adj.year ≠ y ∨ alistGet? (initMonths y) (monthKey adj.year adj.month) = none) :
    monthlySummary h cases y (adjs1 ++ adj :: adjs2) =
      monthlySummary h cases y (adjs1 ++ adjs2) ∧
    (typeTotals (monthlySummary h cases y (adjs1 ++ adj :: adjs2))).2 =
      (typeTotals (monthlySummary h cases y (adjs1 ++ adjs2))).2 := by
  have hmap : monthlyMap h cases y (adjs1 ++ adj :: adjs2) =
      monthlyMap h cases y (adjs1 ++ adjs2) := by
    unfold monthlyMap
    rw [List.foldl_append, List.foldl_append, List.foldl_cons]
    congr 1
    exact adjStep_noop y _ adj
      (monthGrid_foldl_adj y adjs1 _ (monthGrid_foldl_case h y cases _ (monthGrid_init y)))
      hout
  have hsum : monthlySummary h cases y (adjs1 ++ adj :: adjs2) =
      monthlySummary h cases y (adjs1 ++ adjs2) := by
    unfold monthlySummary
    rw [hmap]
  exact ⟨hsum, by rw [hsum]⟩

/-- Witness for C3: an adjustment dated 2023 is a no-op for the 2024 grid. -/
theorem claim_C3_witness :
    monthlySummary refHost [] 2024 [⟨3, 2023, "Full", -500, "correction"⟩] =
      monthlySummary refHost [] 2024 [] ∧
    (typeTotals (monthlySummary refHost [] 2024 [⟨3, 2023, "Full", -500, "correction"⟩])).2 =
      (typeTotals (monthlySummary refHost [] 2024 [])).2 := by
  have h := claim_C3_out_of_grid_adjustment_noop refHost [] 2024 [] []
    ⟨3, 2023, "Full", -500, "correction"⟩ (Or.inl (by decide))
  simpa using h

/-- C4: applying two adjustments in either order yields the same per-month
per-type sums, the same month totals and the same grand total. -/
theorem claim_C4_adjustment_order_commutes (h : JsHost) (cases : List Case) (y : Int)
    (A B : BillingAdjustment) :
    (∀ s ∈ monthlySummary h cases y [A, B], ∀ t ∈ monthlySummary h cases y [B, A],
      s.month = t.month →
      (∀ ty, recordGet0 s.typeAmounts ty = recordGet0 t.typeAmounts ty) ∧ s.total = t.total) ∧
    (typeTotals (monthlySummary h cases y [A, B])).2 =
      (typeTotals (monthlySummary h cases y [B, A])).2 := by
  have hgM : MonthGrid y (cases.foldl (caseStep h y) (initMonths y)) :=
    monthGrid_foldl_case h y cases _ (monthGrid_init y)
  have hgAB := monthGrid_monthlyMap h cases y [A, B]
  have hgBA := monthGrid_monthlyMap h cases y [B, A]
  have hobsT : ∀ mo, 1 ≤ mo → mo ≤ 12 → ∀ ty,
      obsType y (monthlyMap h cases y [A, B]) mo ty =
        obsType y (monthlyMap h cases y [B, A]) mo ty := by
    intro mo h1 h2 ty
    unfold monthlyMap
    rw [obsType_foldl_adj y [A, B] _ mo ty hgM h1 h2,
      obsType_foldl_adj y [B, A] _ mo ty hgM h1 h2]
    simp only [adjSumType, List.map_cons, List.map_nil, List.sum_cons, List.sum_nil]
    ring
  have hobsTot : ∀ mo, 1 ≤ mo → mo ≤ 12 →
      obsTotal y (monthlyMap h cases y [A, B]) mo =
        obsTotal y (monthlyMap h cases y [B, A]) mo := by
    intro mo h1 h2
    unfold monthlyMap
    rw [obsTotal_foldl_adj y [A, B] _ mo hgM h1 h2,
      obsTotal_foldl_adj y [B, A] _ mo hgM h1 h2]
    simp only [adjSumTotal, List.map_cons, List.map_nil, List.sum_cons, List.sum_nil]
    ring
  constructor
  · intro s hs t ht hst
    rw [monthlySummary_eq_values] at hs ht
    obtain ⟨hs1, hs2, _, hgetS⟩ := mem_values_monthGrid y _ hgAB s hs
    obtain ⟨ht1, ht2, _, hgetT⟩ := mem_values_monthGrid y _ hgBA t ht
    have heS : ∀ ty, obsType y (monthlyMap h cases y [A, B]) s.month ty =
        recordGet0 s.typeAmounts ty := by
      intro ty
      unfold obsType
      rw [hgetS]
    have heT : ∀ ty, obsType y (monthlyMap h cases y [B, A]) t.month ty =
        recordGet0 t.typeAmounts ty := by
      intro ty
      unfold obsType
      rw [hgetT]
    have heSt : obsTotal y (monthlyMap h cases y [A, B]) s.month = s.total := by
      unfold obsTotal
      rw [hgetS]
    have heTt : obsTotal y (monthlyMap h cases y [B, A]) t.month = t.total := by
      unfold obsTotal
      rw [hgetT]
    constructor
    · intro ty
      have hOT := hobsT s.month hs1 hs2 ty
      rw [heS ty, hst, heT ty] at hOT
      exact hOT
    · have hOT := hobsTot s.month hs1 hs2
      rw [heSt, hst, heTt] at hOT
      exact hOT
  · rw [monthlySummary_eq_values, monthlySummary_eq_values]
    rw [typeTotals_values y _ hgAB (sumBal_monthlyMap h cases y [A, B]),
      typeTotals_values y _ hgBA (sumBal_monthlyMap h cases y [B, A])]
    congr 1
    apply List.map_congr_left
    intro i hi
    have hi12 := List.mem_range.mp hi
    exact hobsTot (i + 1) (by omega) (by omega)

/-- Witness for C4: two March-2024 adjustments of different types applied in
both orders give the same `"Full"` bucket entry, month total and grand
total (the stored key order differs, the sums do not). -/
theorem claim_C4_witness :
    recordGet0 (MonthlySummary.mk 3 2024 [("Full", 100), ("Short", 50)] 150).typeAmounts
        "Full" =
      recordGet0 (MonthlySummary.mk 3 2024 [("Short", 50), ("Full", 100)] 150).typeAmounts
        "Full" ∧
    (MonthlySummary.mk 3 2024 [("Full", 100), ("Short", 50)] 150).total =
      (MonthlySummary.mk 3 2024 [("Short", 50), ("Full", 100)] 150).total ∧
    (typeTotals (monthlySummary refHost [] 2024
        [⟨3, 2024, "Full", 100, "r"⟩, ⟨3, 2024, "Short", 50, "r"⟩])).2 =
      (typeTotals (monthlySummary refHost [] 2024
        [⟨3, 2024, "Short", 50, "r"⟩, ⟨3, 2024, "Full", 100, "r"⟩])).2 := by
  have h := claim_C4_adjustment_order_commutes refHost [] 2024
    ⟨3, 2024, "Full", 100, "r"⟩ ⟨3, 2024, "Short", 50, "r"⟩
  have hpair := h.1 ⟨3, 2024, [("Full", 100), ("Short", 50)], 150⟩ (by decide)
    ⟨3, 2024, [("Short", 50), ("Full", 100)], 150⟩ (by decide) rfl
  exact ⟨hpair.1 "Full", hpair.2, h.2⟩

theorem categorizeStep_typeOnly (h : JsHost) (y : Int) (acc : Categorized) (c : Case) :
    (categorizeStep h y acc c).typeOnly =
      acc.typeOnly ++ (if inYear h y c ∧ hasType c ∧ ¬ hasAddOns c then [c] else []) := by
  unfold categorizeStep
  by_cases hin : inYear h y c
  · rw [if_pos hin]
    by_cases h1 : isAddOnOnly c ∧ hasAddOns c
    · rw [if_pos h1]
      dsimp only
      rw [if_neg fun hc => hc.2.2 h1.2, List.append_nil]
    · rw [if_neg h1]
      by_cases h2 : hasType c ∧ hasAddOns c
      · rw [if_pos h2]
        dsimp only
        rw [if_neg fun hc => hc.2.2 h2.2, List.append_nil]
      · rw [if_neg h2]
        by_cases h3 : hasType c ∧ ¬ hasAddOns c
        · rw [if_pos h3, if_pos ⟨hin, h3.1, h3.2⟩]
        · rw [if_neg h3, if_neg fun hc => h3 ⟨hc.2.1, hc.2.2⟩, List.append_nil]
  · rw [if_neg hin, if_neg fun hc => hin hc.1, List.append_nil]

theorem categorizeStep_bundled (h : JsHost) (y : Int) (acc : Categorized) (c : Case) :
    (categorizeStep h y acc c).bundled =
      acc.bundled ++
        (if inYear h y c ∧ hasType c ∧ hasAddOns c ∧ ¬ isAddOnOnly c then [c] else []) := by
  unfold categorizeStep
  by_cases hin : inYear h y c
  · rw [if_pos hin]
    by_cases h1 : isAddOnOnly c ∧ hasAddOns c
    · rw [if_pos h1]
      dsimp only
      rw [if_neg fun hc => hc.2.2.2 h1.1, List.append_nil]
    · rw [if_neg h1]
      by_cases h2 : hasType c ∧ hasAddOns c
      · rw [if_pos h2,
          if_pos ⟨hin, h2.1, h2.2, fun haoo => h1 ⟨haoo, h2.2⟩⟩]
      · rw [if_neg h2]
        by_cases h3 : hasType c ∧ ¬ hasAddOns c
        · rw [if_pos h3]
          dsimp only
          rw [if_neg fun hc => h2 ⟨hc.2.1, hc.2.2.1⟩, List.append_nil]
        · rw [if_neg h3, if_neg fun hc => h2 ⟨hc.2.1, hc.2.2.1⟩, List.append_nil]
  · rw [if_neg hin, if_neg fun hc => hin hc.1, List.append_nil]

theorem categorizeStep_addonsOnly (h : JsHost) (y : Int) (acc : Categorized) (c : Case) :
    (categorizeStep h y acc c).addonsOnly =
      acc.addonsOnly ++ (if inYear h y c ∧ isAddOnOnly c ∧ hasAddOns c then [c] else []) := by
  unfold categorizeStep
  by_cases hin : inYear h y c
  · rw [if_pos hin]
    by_cases h1 : isAddOnOnly c ∧ hasAddOns c
    · rw [if_pos h1, if_pos ⟨hin, h1.1, h1.2⟩]
    · rw [if_neg h1]
      by_cases h2 : hasType c ∧ hasAddOns c
      · rw [if_pos h2]
        dsimp only
        rw [if_neg fun hc => h1 ⟨hc.2.1, hc.2.2⟩, List.append_nil]
      · rw [if_neg h2]
        by_cases h3 : hasType c ∧ ¬ hasAddOns c
        · rw [if_pos h3]
          dsimp only
          rw [if_neg fun hc => h1 ⟨hc.2.1, hc.2.2⟩, List.append_nil]
        · rw [if_neg h3, if_neg fun hc => h1 ⟨hc.2.1, hc.2.2⟩, List.append_nil]
  · rw [if_neg hin, if_neg fun hc => hin hc.1, List.append_nil]

theorem foldl_categorize_typeOnly (h : JsHost) (y : Int) (cases : List Case) :
    ∀ acc : Categorized,
      (cases.foldl (categorizeStep h y) acc).typeOnly =
        acc.typeOnly ++
          cases.filter fun c => decide (inYear h y c ∧ hasType c ∧ ¬ hasAddOns c) := by
  induction cases with
  | nil => intro acc; simp
  | cons c rest ih =>
    intro acc
    rw [List.foldl_cons, ih, categorizeStep_typeOnly, List.append_assoc]
    congr 1
    rw [List.filter_cons]
    by_cases hp : inYear h y c ∧ hasType c ∧ ¬ hasAddOns c
    · rw [if_pos hp, if_pos (by simpa using hp)]
      simp
    · rw [if_neg hp, if_neg (by simpa using hp)]
      simp

theorem foldl_categorize_bundled (h : JsHost) (y : Int) (cases : List Case) :
    ∀ acc : Categorized,
      (cases.foldl (categorizeStep h y) acc).bundled =
        acc.bundled ++
          cases.filter fun c =>
            decide (inYear h y c ∧ hasType c ∧ hasAddOns c ∧ ¬ isAddOnOnly c) := by
  induction cases with
  | nil => intro acc; simp
  | cons c rest ih =>
    intro acc
    rw [List.foldl_cons, ih, categorizeStep_bundled, List.append_assoc]
    congr 1
    rw [List.filter_cons]
    by_cases hp : inYear h y c ∧ hasType c ∧ hasAddOns c ∧ ¬ isAddOnOnly c
    · rw [if_pos hp, if_pos (by simpa using hp)]
      simp
    · rw [if_neg hp, if_neg (by simpa using hp)]
      simp

theorem foldl_categorize_addonsOnly (h : JsHost) (y : Int) (cases : List Case) :
    ∀ acc : Categorized,
      (cases.foldl (categorizeStep h y) acc).addonsOnly =
        acc.addonsOnly ++
          cases.filter fun c => decide (inYear h y c ∧ isAddOnOnly c ∧ hasAddOns c) := by
  induction cases with
  | nil => intro acc; simp
  | cons c rest ih =>
    intro acc
    rw [List.foldl_cons, ih, categorizeStep_addonsOnly, List.append_assoc]
    congr 1
    rw [List.filter_cons]
    by_cases hp : inYear h y c ∧ isAddOnOnly c ∧ hasAddOns c
    · rw [if_pos hp, if_pos (by simpa using hp)]
      simp
    · rw [if_neg hp, if_neg (by simpa using hp)]
      simp

theorem mem_typeOnly_iff (h : JsHost) (cases : List Case) (y : Int) (c : Case) :
    c ∈ (categorizedCases h cases y).typeOnly ↔
      c ∈ cases ∧ inYear h y c ∧ hasType c ∧ ¬ hasAddOns c := by
  unfold categorizedCases
  rw [foldl_categorize_typeOnly h y cases ⟨[], [], []⟩]
  simp [List.mem_filter]

theorem mem_bundled_iff (h : JsHost) (cases : List Case) (y : Int) (c : Case) :
    c ∈ (categorizedCases h cases y).bundled ↔
      c ∈ cases ∧ inYear h y c ∧ hasType c ∧ hasAddOns c ∧ ¬ isAddOnOnly c := by
  unfold categorizedCases
  rw [foldl_categorize_bundled h y cases ⟨[], [], []⟩]
  simp [List.mem_filter]

theorem mem_addonsOnly_iff (h : JsHost) (cases : List Case) (y : Int) (c : Case) :
    c ∈ (categorizedCases h cases y).addonsOnly ↔
      c ∈ cases ∧ inYear h y c ∧ isAddOnOnly c ∧ hasAddOns c := by
  unfold categorizedCases
  rw [foldl_categorize_addonsOnly h y cases ⟨[], [], []⟩]
  simp [List.mem_filter]

/-- C5 counterexample: the 2024 case with an add-on billing amount of
`"100"` but no billing type and a blank add-ons-only flag is assigned to
none of the three categories, although the claim requires exactly one. -/
theorem claim_C5_counterexample :
    categorizedCases refHost [cexNoType] 2024 = ⟨[], [], []⟩ ∧
    jsTrim cexNoType.addOnsBilling ≠ "" ∧
    (parseDateInput refHost cexNoType.dateReceived).map (fun d => d.year) = some 2024 := by
  refine ⟨by decide, by decide, by decide⟩

/-- C5 (amended): the categories are mutually exclusive for every case, and
a reporting-year case is assigned to exactly one of the three iff it has a
non-empty billing-type or the add-ons-only flag `"yes"` together with a
non-empty add-on billing amount; a case with an add-on amount but no type
and a flag other than `"yes"` falls into none, as do cases with neither
field. -/
theorem claim_C5_classifier_partition (h : JsHost) (cases : List Case) (y : Int) (c : Case) :
    (c ∈ (categorizedCases h cases y).typeOnly →
      c ∉ (categorizedCases h cases y).bundled ∧ c ∉ (categorizedCases h cases y).addonsOnly) ∧
    (c ∈ (categorizedCases h cases y).bundled →
      c ∉ (categorizedCases h cases y).addonsOnly) ∧
    ((c ∈ (categorizedCases h cases y).typeOnly ∨ c ∈ (categorizedCases h cases y).bundled ∨
        c ∈ (categorizedCases h cases y).addonsOnly) ↔
      c ∈ cases ∧ inYear h y c ∧ (hasType c ∨ (isAddOnOnly c ∧ hasAddOns c))) := by
  rw [mem_typeOnly_iff, mem_bundled_iff, mem_addonsOnly_iff]
  tauto

/-- Witness for C5: the flagged type-only case is in no other category. -/
theorem claim_C5_witness :
    cexFlagged ∉ (categorizedCases refHost [cexFlagged] 2024).bundled ∧
    cexFlagged ∉ (categorizedCases refHost [cexFlagged] 2024).addonsOnly :=
  (claim_C5_classifier_partition refHost [cexFlagged] 2024 cexFlagged).1 (by decide)

/-- C6 counterexample: a 2024 case with billing type `"Full"`, no add-on
billing amount, and add-ons-only flag `"yes"` IS classified type-only,
although the claim says it must not be. -/
theorem claim_C6_counterexample :
    cexFlagged ∈ (categorizedCases refHost [cexFlagged] 2024).typeOnly ∧
    jsToLower cexFlagged.addOnsOnly = "yes" ∧
    cexFlagged.type ≠ "" ∧
    jsTrim cexFlagged.addOnsBilling = "" := by
  refine ⟨by decide, by decide, by decide, by decide⟩

/-- C6 (amended): a reporting-year case is classified type-only exactly
when a billing-type is present and no add-on billing amount is present —
the add-ons-only flag plays no role in this branch. -/
theorem claim_C6_type_only_membership (h : JsHost) (cases : List Case) (y : Int) (c : Case) :
    c ∈ (categorizedCases h cases y).typeOnly ↔
      c ∈ cases ∧ inYear h y c ∧ hasType c ∧ ¬ hasAddOns c :=
  mem_typeOnly_iff h cases y c

/-- Witness for C6: the flagged case is classified type-only. -/
theorem claim_C6_witness :
    cexFlagged ∈ (categorizedCases refHost [cexFlagged] 2024).typeOnly :=
  (claim_C6_type_only_membership refHost [cexFlagged] 2024 cexFlagged).mpr (by decide)

theorem revOf_addonBump (q : ℚ) (m : List (String × AddOnStat)) (addon name : String) :
    revOf (addonBump q m addon) name = revOf m name + (if addon = name then q else 0) := by
  unfold addonBump revOf
  by_cases h : addon = name
  · subst h
    rw [alistGet?_recordSet_self]
    simp
  · rw [alistGet?_recordSet_ne m addon name _ h, if_neg h]
    ring

theorem revOf_foldl_bump (q : ℚ) (comps : List String) :
    ∀ (m : List (String × AddOnStat)) (name : String),
      revOf (comps.foldl (addonBump q) m) name =
        revOf m name + (comps.count name : ℚ) * q := by
  induction comps with
  | nil => intro m name; simp
  | cons a rest ih =>
    intro m name
    rw [List.foldl_cons, ih, revOf_addonBump]
    simp only [List.count_cons, beq_iff_eq]
    by_cases h : a = name
    · subst h
      simp only [if_pos rfl]
      push_cast
      ring
    · rw [if_neg h, if_neg h]
      push_cast
      ring

/-- C7 counterexample: for the 2024 case with add-on amount `"100"` and
`addOnIpDelivered = "Alpha and Beta"`, the spec's delimiter list yields the
two components `"Alpha"` and `"Beta"` (50 each under an even split), but the
rollup splits on comma/plus only: it keeps the single component
`"Alpha and Beta"` with the full 100 and records nothing under `"Alpha"`. -/
theorem claim_C7_counterexample :
    specSplitComponents cexAndList.addOnIpDelivered = ["Alpha", "Beta"] ∧
    addonRollup refHost [cexAndList] 2024 = [("Alpha and Beta", ⟨1, 100⟩)] ∧
    alistGet? (addonRollup refHost [cexAndList] 2024) "Alpha" = none := by
  refine ⟨by decide, by decide, by decide⟩

/-- C7 (amended): for every reporting-year case with add-on billing and a
non-empty add-on-IP-delivered field, the rollup splits the case's add-on
revenue evenly across the components obtained by splitting the field on
comma or plus sign only (the word "and" is not a delimiter): each listed
component receives one occurrence count and the add-on amount divided by
the number of listed components per occurrence. -/
theorem claim_C7_even_split (h : JsHost) (y : Int) (m : List (String × AddOnStat)) (c : Case)
    (hin : inYear h y c) (hao : hasAddOns c) (hip : c.addOnIpDelivered ≠ "") :
    ∀ name, revOf (addonRollupStep h y m c) name =
      revOf m name +
        ((addonComponents c.addOnIpDelivered).count name : ℚ) *
          (parseAmount c.addOnsBilling / ((addonComponents c.addOnIpDelivered).length : ℚ)) := by
  intro name
  unfold addonRollupStep
  rw [if_pos hin]
  dsimp only
  rw [if_pos ⟨hao, hip⟩, if_pos hao]
  exact revOf_foldl_bump _ _ m name

/-- Witness for C7 (amended): with components `"Alpha, Beta"` and amount
`"100"`, the component `"Alpha"` receives an even share of 50. -/
theorem claim_C7_witness :
    revOf (addonRollupStep refHost 2024 []
      ⟨.str "2024-03-15", "", "", "100", "", "Alpha, Beta", "", ""⟩) "Alpha" = 50 := by
  have hsplit := claim_C7_even_split refHost 2024 []
    ⟨.str "2024-03-15", "", "", "100", "", "Alpha, Beta", "", ""⟩
    (by decide) (by decide) (by decide) "Alpha"
  rw [hsplit]
  decide

theorem lexLe_total : ∀ as bs : List Char, lexLe as bs = true ∨ lexLe bs as = true := by
  intro as
  induction as with
  | nil => intro bs; left; rfl
  | cons a as2 ih =>
    intro bs
    cases bs with
    | nil => right; rfl
    | cons b bs2 =>
      by_cases hab : a.toNat < b.toNat
      · left
        simp [lexLe, hab]
      · by_cases hba : b.toNat < a.toNat
        · right
          simp [lexLe, hba]
        · rcases ih bs2 with h1 | h1
          · left
            simp [lexLe, hab, hba, h1]
          · right
            simp [lexLe, hab, hba, h1]

theorem strLe_total (a b : String) : strLe a b = true ∨ strLe b a = true :=
  lexLe_total a.data b.data

theorem keys_recordSet_present (m : List (String × α)) (k : String) (v : α)
    (h : (alistGet? m k).isSome = true) :
    (recordSet m k v).map (fun p => p.1) = m.map fun p => p.1 := by
  induction m with
  | nil => simp [alistGet?] at h
  | cons p rest ih =>
    by_cases hp : p.1 = k
    · simp [recordSet, hp]
    · simp only [alistGet?, if_neg hp] at h
      simp [recordSet, hp, ih h]

theorem keys_recordSet_absent (m : List (String × α)) (k : String) (v : α)
    (h : alistGet? m k = none) :
    (recordSet m k v).map (fun p => p.1) = (m.map fun p => p.1) ++ [k] := by
  induction m with
  | nil => simp [recordSet]
  | cons p rest ih =>
    by_cases hp : p.1 = k
    · simp [alistGet?, hp] at h
    · simp only [alistGet?, if_neg hp] at h
      simp [recordSet, hp, ih h]

theorem contains_keys_eq_isSome (m : List (String × α)) (k : String) :
    (m.map fun p => p.1).contains k = (alistGet? m k).isSome := by
  induction m with
  | nil => simp [alistGet?]
  | cons p rest ih =>
    by_cases h : p.1 = k
    · simp [alistGet?, h]
    · have hba : (k == p.1) = false := by
        simpa using fun hc : k = p.1 => h hc.symm
      simp only [List.map_cons, List.contains_cons, hba, Bool.false_or, alistGet?, if_neg h]
      exact ih

theorem keys_matrixStep (h : JsHost) (y : Int)
    (rm : List (String × List (String × OfficeData))) (c : Case) :
    (matrixStep h y rm c).map (fun p => p.1) =
      if inYear h y c then
        (if (rm.map fun p => p.1).contains (regionLabel c) then rm.map fun p => p.1
          else (rm.map fun p => p.1) ++ [regionLabel c])
      else rm.map fun p => p.1 := by
  by_cases hin : inYear h y c
  · rw [if_pos hin]
    unfold inYear at hin
    cases hp : parseDateInput h c.dateReceived with
    | none => rw [hp] at hin; exact absurd hin id
    | some d =>
      rw [hp] at hin
      unfold matrixStep
      rw [hp]
      dsimp only
      rw [if_neg (by simpa using hin)]
      rw [contains_keys_eq_isSome]
      by_cases hreg : (alistGet? rm (regionLabel c)).isSome = true
      · rw [if_pos hreg, if_pos hreg]
        rw [keys_recordSet_present _ _ _ hreg]
      · have hnone : alistGet? rm (regionLabel c) = none :=
          Option.not_isSome_iff_eq_none.mp (by simpa using hreg)
        rw [if_neg hreg, if_neg hreg]
        rw [keys_recordSet_present, keys_recordSet_absent _ _ _ hnone]
        rw [alistGet?_recordSet_self]
        rfl
  · rw [if_neg hin]
    unfold inYear at hin
    cases hp : parseDateInput h c.dateReceived with
    | none =>
      unfold matrixStep
      rw [hp]
    | some d =>
      rw [hp] at hin
      unfold matrixStep
      rw [hp]
      dsimp only
      rw [if_pos (by simpa using hin)]

theorem keys_matrix_foldl (h : JsHost) (y : Int) (cases : List Case) :
    ∀ rm : List (String × List (String × OfficeData)),
      ((cases.foldl (matrixStep h y) rm).map fun p => p.1) =
        cases.foldl
          (fun acc c =>
            if inYear h y c then
              (if acc.contains (regionLabel c) then acc else acc ++ [regionLabel c])
            else acc)
          (rm.map fun p => p.1) := by
  induction cases with
  | nil => intro rm; rfl
  | cons c rest ih =>
    intro rm
    rw [List.foldl_cons, List.foldl_cons, ih, keys_matrixStep]

theorem matrix_keys_firstSeen (h : JsHost) (cases : List Case) (y : Int) :
    ((cases.foldl (matrixStep h y) []).map fun p => p.1) = firstSeenRegions h y cases := by
  rw [keys_matrix_foldl h y cases []]
  rfl

/-- C8 counterexample: with a `"Zulu"`-region case appearing before an
`"Alpha"`-region case, the matrix lists the unrecognized regions as
`["Zulu", "Alpha"]` — first-seen order, not the lexical order the claim
requires (`"Alpha"` sorts before `"Zulu"`). -/
theorem claim_C8_counterexample :
    ((matrixRegions refHost [cexZulu, cexAlpha] 2024).map fun r => r.region) =
      ["Zulu", "Alpha"] ∧
    strLe "Alpha" "Zulu" = true ∧ strLe "Zulu" "Alpha" = false := by
  refine ⟨by decide, by decide, by decide⟩

/-- C8 (amended): the matrix orders region rows with the canonical
`REGION_ORDER` members that occur in the data first, and every unrecognized
region value appended afterward in order of first appearance in the case
list (not lexical order); offices within each region are sorted lexically. -/
theorem claim_C8_region_office_ordering (h : JsHost) (cases : List Case) (y : Int) :
    ((matrixRegions h cases y).map fun r => r.region) =
      (REGION_ORDER.filter fun r => (firstSeenRegions h y cases).contains r) ++
        ((firstSeenRegions h y cases).filter fun r => !(REGION_ORDER.contains r)) ∧
    (∀ rr ∈ matrixRegions h cases y,
      List.Chain' (fun a b : OfficeRow => strLe a.office b.office = true) rr.rows) := by
  constructor
  · unfold matrixRegions
    rw [List.map_map]
    simp only [Function.comp_def]
    rw [List.map_id']
    congr 1
    · apply List.filter_congr
      intro r _
      rw [← matrix_keys_firstSeen h cases y, contains_keys_eq_isSome]
    · rw [matrix_keys_firstSeen]
  · intro rr hrr
    unfold matrixRegions at hrr
    obtain ⟨region, _, hmk⟩ := List.mem_map.mp hrr
    have hrows : rr.rows =
        (sortLe (fun a b => strLe a.1 b.1)
          ((alistGet? (cases.foldl (matrixStep h y) []) region).getD [])).map fun p =>
            OfficeRow.mk p.1 p.2.quarters p.2.total := by
      rw [← hmk]
    rw [hrows]
    have hch := sortLe_chain (fun a b : String × OfficeData => strLe a.1 b.1)
      (fun a b => strLe_total a.1 b.1)
      ((alistGet? (cases.foldl (matrixStep h y) []) region).getD [])
    exact (List.chain'_map _).mpr hch

/-- Witness for C8: the offices of the single `"APAC"` region row built
from a Tokyo case and a Delhi case come out lexically sorted. -/
theorem claim_C8_witness :
    List.Chain' (fun a b : OfficeRow => strLe a.office b.office = true)
      [⟨"Delhi", [0, 1, 0, 0], 1⟩, ⟨"Tokyo", [1, 0, 0, 0], 1⟩] := by
  have h := (claim_C8_region_office_ordering refHost
    [⟨.str "2024-03-15", "", "", "", "", "", "APAC", "Tokyo"⟩,
     ⟨.str "2024-05-01", "", "", "", "", "", "APAC", "Delhi"⟩] 2024).2
    ⟨"APAC", [⟨"Delhi", [0, 1, 0, 0], 1⟩, ⟨"Tokyo", [1, 0, 0, 0], 1⟩], [1, 1, 0, 0], 2⟩
    (by decide)
  exact h

/-- C9: the raw status `"cancelled "` (trailing space, lowercase) normalizes
to canonical `"Cancelled"`, `"Delivered"` normalizes to itself, and every
status normalizing to a terminal value is excluded from the active set and
never counted as overdue, whatever the promised date and the current day. -/
theorem claim_C9_terminal_status_never_overdue :
    normalizeStatus (some "cancelled ") = some "Cancelled" ∧
    normalizeStatus (some "Delivered") = some "Delivered" ∧
    (∀ (status : Option String) (n : String),
      normalizeStatus status = some n →
      closedStatusesSet.contains (jsToLower n) = true →
      isActiveStatus status = false ∧
        ∀ (h : JsHost) (promised : DateInput) (todayMs : Int),
          getOverdueBy h promised status todayMs = 0) := by
  refine ⟨by decide, by decide, ?_⟩
  intro status n hnorm hterm
  have hact : isActiveStatus status = false := by
    unfold isActiveStatus
    rw [hnorm]
    dsimp only
    by_cases hn : n = ""
    · rw [if_pos hn]
    · rw [if_neg hn, hterm]
      rfl
  refine ⟨hact, ?_⟩
  intro h promised todayMs
  unfold getOverdueBy
  cases hp : parseDateInput h promised with
  | none => rfl
  | some d =>
    dsimp only
    simp [hact]

/-- Witness for C9: both terminal statuses yield zero overdue days for a
promised date (2020-01-01) far in the past of the supplied clock. -/
theorem claim_C9_witness :
    isActiveStatus (some "cancelled ") = false ∧
    getOverdueBy refHost (.str "2020-01-01") (some "cancelled ") 1760000000000 = 0 ∧
    isActiveStatus (some "Delivered") = false ∧
    getOverdueBy refHost (.str "2020-01-01") (some "Delivered") 1760000000000 = 0 := by
  have h1 := claim_C9_terminal_status_never_overdue.2.2 (some "cancelled ") "Cancelled"
    (by decide) (by decide)
  have h2 := claim_C9_terminal_status_never_overdue.2.2 (some "Delivered") "Delivered"
    (by decide) (by decide)
  exact ⟨h1.1, h1.2 refHost (.str "2020-01-01") 1760000000000,
    h2.1, h2.2 refHost (.str "2020-01-01") 1760000000000⟩

theorem caseStep_none (h : JsHost) (y : Int) (m : List (String × MonthlySummary)) (c : Case)
    (hn : parseDateInput h c.dateReceived = none) : caseStep h y m c = m := by
  unfold caseStep
  rw [hn]

theorem quarterStep_none (h : JsHost) (y : Int) (m : List (String × QuarterSummary)) (c : Case)
    (hn : parseDateInput h c.dateReceived = none) : quarterStep h y m c = m := by
  unfold quarterStep
  rw [hn]

/-- C10: `parseDateInput` returns `null` (never throwing, never an invalid
date) for absent values, blank or whitespace-only strings, `"NA"`/`"N/A"`
in any letter case, and strings the host cannot parse as a date — and a
record with such a date value is silently excluded from the monthly and
quarterly aggregations. -/
theorem claim_C10_parse_date_null (h : JsHost) (s : String) :
    parseDateInput h .undef = none ∧
    parseDateInput h .invalidDate = none ∧
    ((jsTrim s = "" ∨ jsToLower (jsTrim s) = "na" ∨ jsToLower (jsTrim s) = "n/a" ∨
        h.newDateFromString (jsTrim s) = none) →
      parseDateInput h (.str s) = none) ∧
    (∀ (c : Case) (cases : List Case) (y : Int) (adjs : List BillingAdjustment),
      parseDateInput h c.dateReceived = none →
      monthlySummary h (c :: cases) y adjs = monthlySummary h cases y adjs ∧
      quarterlySummary h (c :: cases) y = quarterlySummary h cases y) := by
  refine ⟨rfl, rfl, ?_, ?_⟩
  · intro hcond
    unfold parseDateInput
    dsimp only
    by_cases h1 : jsTrim s = ""
    · rw [if_pos h1]
    · rw [if_neg h1]
      by_cases h2 : jsToLower (jsTrim s) = "na" ∨ jsToLower (jsTrim s) = "n/a"
      · rw [if_pos h2]
      · rw [if_neg h2]
        rcases hcond with hc | hc | hc | hc
        · exact absurd hc h1
        · exact absurd (Or.inl hc) h2
        · exact absurd (Or.inr hc) h2
        · exact hc
  · intro c cases y adjs hnone
    constructor
    · unfold monthlySummary monthlyMap
      rw [List.foldl_cons, caseStep_none h y _ c hnone]
    · unfold quarterlySummary quarterlyMap
      rw [List.foldl_cons, quarterStep_none h y _ c hnone]

/-- Witness for C10: `" N/A "` parses to `null`, and a record whose date
string the host rejects contributes nothing to the monthly aggregation. -/
theorem claim_C10_witness :
    parseDateInput refHost (.str " N/A ") = none ∧
    monthlySummary refHost [⟨.str "not-a-date", "Full", "100", "", "", "", "", ""⟩] 2024 [] =
      monthlySummary refHost [] 2024 [] := by
  have h3 := (claim_C10_parse_date_null refHost " N/A ").2.2.1
    (Or.inr (Or.inr (Or.inl (by decide))))
  have h4 := (claim_C10_parse_date_null refHost "").2.2.2
    ⟨.str "not-a-date", "Full", "100", "", "", "", "", ""⟩ [] 2024 [] (by decide)
  exact ⟨h3, h4.1⟩

end CFTracker
